import Mathlib

/-!
Verification of the content deduplication / clustering / novelty pipeline of
the Knowledge-Mgmt repository (`src/weekly_intel/processing/`).

The Python sources are shallowly embedded below:

* `fingerprint.py` — MinHash fingerprinting. The datasketch `MinHash` is
  embedded over an abstract hash-permutation family `HashFam` (datasketch's
  concrete sha1-based permutations are external to the repository); a fresh
  `MinHash` has every slot equal to the sentinel `maxHashVal = 2^32 - 1` and
  `update` takes component-wise minimums, exactly as documented by the
  library.  Python's `\w` is modelled over ASCII (alphanumeric or `_`).
* `clustering.py` — `cluster_items` and the `_threshold_clustering`
  fallback.  Cosine similarities are irrational in general (they divide by
  Euclidean norms), so the similarity matrix consumed by the fallback is a
  parameter `sim : Nat → Nat → ℚ` standing for the exact value of
  `cosine_similarity_matrix(embeddings)`, and the label assignment of the
  (external) HDBSCAN library is a strategy parameter `labelsOf`.  The
  representative selection uses squared Euclidean distance, which has the
  same argmin (including ties) as `np.linalg.norm`.
* `novelty.py` — `check_novelty` / `batch_check_novelty`.  Cosine
  similarity is a context parameter `cos : Emb → Emb → ℚ`; in exact
  arithmetic the single variant's `dot a b / (‖a‖‖b‖)` (with the zero-norm
  guard returning 0) and the batch variant's dot product of zero-guard
  normalised vectors coincide, so both embedded functions consume the same
  parameter.  Wall-clock time is an integer tick count: `now` is the time of
  the run, `weekTicks` the length of `timedelta(weeks=1)`, and `wk` the
  `strftime("%Y-%W")` period-key map.
* `pipeline.py` — `ProcessingPipeline.process_new_items`, `_find_duplicates`
  and `_create_clusters` over an explicit store record mirroring the ORM
  tables (`models.py`).  The external extraction and embedding services are
  `Except`-valued parameters (a raised exception is an `error`).  The stored
  embedding bytes round-trip exactly, so `ProcItem.embedding` holds the
  vector itself.  An empty-string fingerprint (Python falsy, skipped
  everywhere exactly like a missing one) is represented by `none`.
-/

set_option maxRecDepth 100000

namespace WeeklyIntel

/-! ### fingerprint.py -/

/-- Abstract family of MinHash permutation hash functions: permutation
index ↦ token ↦ hash value. -/
abbrev HashFam := Nat → String → Nat

/-- Python `NUM_PERMUTATIONS = 128`. -/
def numPermutations : Nat := 128

/-- Python `DEFAULT_THRESHOLD = 0.8`. -/
def defaultThreshold : ℚ := 8 / 10

/-- datasketch `_max_hash = (1 << 32) - 1`, the value every slot of a fresh
`MinHash` holds. -/
def maxHashVal : Nat := 2 ^ 32 - 1

/-- A character matching Python's `\w` (ASCII fragment): alphanumeric or
underscore. -/
def isWordChar (c : Char) : Bool := c.isAlphanum || c = '_'

/-- One character of `text.lower()` followed by `re.sub(r"[^\w\s]", " ", ·)`:
lower-case it, keep word characters, and turn everything else
(punctuation and whitespace alike) into a space.  Whitespace collapsing and
stripping are performed by `splitWords`. -/
def normChar (c : Char) : Char :=
  let l := c.toLower
  if isWordChar l then l else ' '

/-- Split a character list at spaces, dropping empty fragments: the
combination of `re.sub(r"\s+", " ", ·).strip()` and `str.split`. -/
def splitWords : List Char → List Char → List String
  | [], acc => if acc.isEmpty then [] else [String.mk acc.reverse]
  | c :: cs, acc =>
    if c = ' ' then
      if acc.isEmpty then splitWords cs [] else String.mk acc.reverse :: splitWords cs []
    else
      splitWords cs (c :: acc)

/-- Overlapping 3-word shingles, each joined with a single space. -/
def shingle3 : List String → List String
  | a :: b :: c :: rest => (a ++ " " ++ b ++ " " ++ c) :: shingle3 (b :: c :: rest)
  | _ => []

/-- Python `tokenize(text)`: empty text gives no tokens; otherwise normalise,
split into words and take 3-word shingles, falling back to the bare words
when fewer than 3 exist. -/
def tokenize (text : String) : List String :=
  if text = "" then []
  else
    let words := splitWords (text.data.map normChar) []
    if words.length < 3 then words else shingle3 words

/-- Python `compute_minhash(text)`: the `num_perm = 128` MinHash slots; each slot
starts at the `maxHashVal` sentinel and `update` takes the minimum with the
slot's hash of each token. -/
def computeMinhash (h : HashFam) (text : String) : List Nat :=
  (List.range numPermutations).map
    (fun p => (tokenize text).foldl (fun acc tok => min acc (h p tok)) maxHashVal)

/-- datasketch `MinHash.jaccard`: the fraction of matching slots. -/
def jaccardOfSlots (a b : List Nat) : ℚ :=
  (((a.zip b).countP (fun q => q.1 = q.2) : ℚ)) / (a.length : ℚ)

/-- Python `compute_similarity(text1, text2)`. -/
def computeSimilarity (h : HashFam) (t1 t2 : String) : ℚ :=
  jaccardOfSlots (computeMinhash h t1) (computeMinhash h t2)

/-- Python `are_near_duplicates(text1, text2, threshold)`: true iff the MinHash
similarity of the two raw texts reaches the threshold.  Note there is no
empty-text guard on this code path. -/
def areNearDuplicates (h : HashFam) (t1 t2 : String) (threshold : ℚ) : Bool :=
  computeSimilarity h t1 t2 ≥ threshold

/-- Python `compute_fingerprint(text)`: empty text yields the falsy sentinel `""`
(here `none`); otherwise the serialised MinHash slots. -/
def computeFingerprint (h : HashFam) (text : String) : Option (List Nat) :=
  if text = "" then none else some (computeMinhash h text)

/-- Python `compute_similarity_from_fingerprints`: `None` when either stored
fingerprint is the falsy sentinel / unloadable. -/
def similarityFromFingerprints (fp1 fp2 : Option (List Nat)) : Option ℚ :=
  match fp1, fp2 with
  | some a, some b => some (jaccardOfSlots a b)
  | _, _ => none

/-- Python `are_fingerprints_similar(fp1, fp2, threshold)`. -/
def areFingerprintsSimilar (fp1 fp2 : Option (List Nat)) (threshold : ℚ) : Option Bool :=
  match similarityFromFingerprints fp1 fp2 with
  | none => none
  | some s => some (s ≥ threshold)

/-! ### clustering.py -/

/-- Embedding vectors (`np.ndarray` rows) with exact rational entries. -/
abbrev Emb := List ℚ

/-- Python `Cluster` dataclass. -/
structure Cluster where
  id : Int
  itemIndices : List Nat
  centroid : List ℚ
  representativeIdx : Nat
deriving Repr, DecidableEq

/-- Python `ClusteringResult` dataclass (`labels[i] = -1` means noise). -/
structure ClusteringResult where
  clusters : List Cluster
  labels : List Int
  noiseIndices : List Nat
deriving Repr, DecidableEq

/-- Python `max(sim_matrix[j, idx] for idx in cluster_indices)` — Python `max`
over the (always non-empty) current member list. -/
def maxSimTo (sim : Nat → Nat → ℚ) (j : Nat) : List Nat → ℚ
  | [] => 0
  | i :: rest => rest.foldl (fun m k => max m (sim j k)) (sim j i)

/-- One inner-loop step of `_threshold_clustering`: absorb index `j` into
the open cluster `cur` when it is still unlabelled and its best similarity
to a current member reaches the threshold. -/
def innerScan (sim : Nat → Nat → ℚ) (t : ℚ) (cur : Int)
    (st : List Int × List Nat) (j : Nat) : List Int × List Nat :=
  if st.1.getD j (-1) ≠ -1 then st
  else if maxSimTo sim j st.2 ≥ t then (st.1.set j cur, st.2 ++ [j])
  else st

/-- The inner `for j in range(i+1, n)` scan, seeded with member list `[i]`. -/
def innerLoop (sim : Nat → Nat → ℚ) (t : ℚ) (cur : Int)
    (labels : List Int) (i : Nat) : List Int × List Nat :=
  (List.range' (i + 1) (labels.length - (i + 1))).foldl (innerScan sim t cur) (labels, [i])

/-- One outer-loop step of `_threshold_clustering`: open a cluster at the
still-unlabelled index `i`, absorb later indices, and revert a singleton
cluster to noise (the label counter advances only for kept clusters). -/
def outerStep (sim : Nat → Nat → ℚ) (t : ℚ)
    (st : List Int × Int) (i : Nat) : List Int × Int :=
  if st.1.getD i (-1) ≠ -1 then st
  else
    let labels1 := st.1.set i st.2
    let p := innerLoop sim t st.2 labels1 i
    if p.2.length = 1 then (p.1.set i (-1), st.2) else (p.1, st.2 + 1)

/-- Python `_threshold_clustering(embeddings)`: greedy single-pass threshold
clustering.  `sim` is the exact value of
`cosine_similarity_matrix(embeddings)` and `t` the configured
`semantic_threshold` the source reads from config. -/
def thresholdClustering (sim : Nat → Nat → ℚ) (t : ℚ) (n : Nat) : List Int :=
  ((List.range n).foldl (outerStep sim t) (List.replicate n (-1), 0)).1

/-- Python `np.where(labels == l)[0].tolist()`, with `k` the index of the first
element of the remaining list. -/
def idxWhereAux : List Int → Int → Nat → List Nat
  | [], _, _ => []
  | x :: xs, l, k =>
    if x = l then k :: idxWhereAux xs l (k + 1) else idxWhereAux xs l (k + 1)

/-- Indices of the entries of `labels` equal to `l`. -/
def idxWhere (labels : List Int) (l : Int) : List Nat := idxWhereAux labels l 0

/-- Component-wise vector sum. -/
def vecAdd (a b : List ℚ) : List ℚ := List.zipWith (· + ·) a b

/-- Scalar multiple of a vector. -/
def vecSmul (q : ℚ) (v : List ℚ) : List ℚ := v.map (q * ·)

/-- Python `np.mean(cluster_embeddings, axis=0)`. -/
def meanVec (vs : List (List ℚ)) : List ℚ :=
  match vs with
  | [] => []
  | v :: rest => vecSmul (1 / (vs.length : ℚ)) (rest.foldl vecAdd v)

/-- Squared Euclidean distance; `np.linalg.norm` has the same argmin and
the same ties. -/
def sqDist (a b : List ℚ) : ℚ := (List.zipWith (fun x y => (x - y) ^ 2) a b).sum

/-- One scan step of `np.argmin`: state is (best index, best value, next
index); a strictly smaller value takes over (ties keep the earlier
index). -/
def argminStep (st : Nat × ℚ × Nat) (x : ℚ) : Nat × ℚ × Nat :=
  if x < st.2.1 then (st.2.2, x, st.2.2 + 1) else (st.1, st.2.1, st.2.2 + 1)

/-- Python `np.argmin`: position of the first minimal entry. -/
def argminPos (l : List ℚ) : Nat :=
  match l with
  | [] => 0
  | v :: rest => (rest.foldl argminStep (0, v, 1)).1

/-- Build the `Cluster` object for label `lab` (clustering.py lines 88–106). -/
def buildCluster (embeddings : List Emb) (labels : List Int) (lab : Int) : Cluster :=
  let indices := idxWhere labels lab
  let clusterEmbeddings := indices.map (fun i => embeddings.getD i [])
  let centroid := meanVec clusterEmbeddings
  let dists := clusterEmbeddings.map (fun e => sqDist e centroid)
  { id := lab
    itemIndices := indices
    centroid := centroid
    representativeIdx := indices.getD (argminPos dists) 0 }

/-- Insert into an ascending list. -/
def insertAsc (x : Int) : List Int → List Int
  | [] => [x]
  | y :: ys => if x ≤ y then x :: y :: ys else y :: insertAsc x ys

/-- Ascending insertion sort (`sorted`). -/
def sortAsc (l : List Int) : List Int := l.foldr insertAsc []

/-- Python `sorted(set(labels) - {-1})`. -/
def uniqueSortedLabels (labels : List Int) : List Int :=
  sortAsc ((labels.dedup).filter (fun l => l ≠ -1))

/-- Python `cluster_items(embeddings, min_cluster_size)`.  `labelsOf` is the label
assignment of the selected strategy: the external HDBSCAN fit on normalised
embeddings, or `_threshold_clustering` when HDBSCAN is unavailable
(`min_samples` and `cluster_selection_epsilon` are only forwarded to
HDBSCAN and hence live inside `labelsOf`). -/
def clusterItems (labelsOf : List Emb → List Int) (embeddings : List Emb)
    (minClusterSize : Nat) : ClusteringResult :=
  if embeddings.length < minClusterSize then
    { clusters := []
      labels := List.replicate embeddings.length (-1)
      noiseIndices := List.range embeddings.length }
  else
    let labels := labelsOf embeddings
    { clusters := (uniqueSortedLabels labels).map (buildCluster embeddings labels)
      labels := labels
      noiseIndices := idxWhere labels (-1) }

/-- The fallback strategy as a `labelsOf` argument for `clusterItems`. -/
def fallbackLabels (sim : Nat → Nat → ℚ) (t : ℚ) : List Emb → List Int :=
  fun embs => thresholdClustering sim t embs.length

/-! ### Store rows (`models.py`) -/

/-- Python `ContentItem` row (the fields the processing core reads). An empty
stored fingerprint string — Python-falsy and skipped everywhere exactly
like a missing one — is represented by `none`. -/
structure ContentItemRec where
  id : Int
  sourceId : Int
  externalId : String
  title : Option String
  author : Option String
  contentText : Option String
  publishedAt : Option Int
  fingerprint : Option (List Nat)
deriving Repr, DecidableEq

/-- Python `ProcessedItem` row.  `embedding` holds the stored vector (the
float32 byte round-trip is exact); `themes` stands in for the opaque
JSON payloads (`themes`, `hot_takes`, `entities`) carried verbatim. -/
structure ProcItem where
  id : Int
  contentItemId : Int
  summary : String
  keyInformation : List String
  themes : List String
  embedding : Option Emb
  processedAt : Int
deriving Repr, DecidableEq

instance : Inhabited ProcItem := ⟨⟨0, 0, "", [], [], none, 0⟩⟩

/-! ### novelty.py -/

/-- One entry of `NoveltyResult.similar_items`:
`{id, title, similarity, week_number}`. -/
structure SimilarEntry where
  id : Int
  title : Option String
  similarity : ℚ
  weekNumber : Int
deriving Repr, DecidableEq

/-- Python `NoveltyResult` dataclass. -/
structure NoveltyResult where
  isNovel : Bool
  noveltyScore : ℚ
  similarItems : List SimilarEntry
  isFollowup : Bool
deriving Repr, DecidableEq

/-- Ambient data of a novelty check: exact cosine similarity, the wall
clock (`datetime.utcnow()` as ticks), the `timedelta(weeks=1)` length, the
`strftime("%Y-%W")` period-key map, and the session's two tables. -/
structure NovCtx where
  cos : Emb → Emb → ℚ
  now : Int
  weekTicks : Int
  wk : Int → Int
  contents : List ContentItemRec
  procs : List ProcItem

/-- Python `item.content_item.title if item.content_item else None`. -/
def titleOf (ctx : NovCtx) (p : ProcItem) : Option String :=
  (ctx.contents.find? (fun c => c.id == p.contentItemId)).bind (fun c => c.title)

/-- Python `cutoff_date = datetime.utcnow() - timedelta(weeks=weeks_back)`. -/
def cutoffDate (ctx : NovCtx) (weeksBack : Int) : Int :=
  ctx.now - weeksBack * ctx.weekTicks

/-- The single-item history filter: `id != processed_item_id`,
`processed_at >= cutoff_date`, `embedding.isnot(None)`. -/
def histFilterSingle (ctx : NovCtx) (pid : Int) (weeksBack : Int) (p : ProcItem) : Bool :=
  (p.id != pid) && (decide (p.processedAt ≥ cutoffDate ctx weeksBack)) && p.embedding.isSome

/-- The batch history filter: `id.notin_(item_ids)` instead. -/
def histFilterBatch (ctx : NovCtx) (ids : List Int) (weeksBack : Int) (p : ProcItem) : Bool :=
  (!(ids.contains p.id)) && (decide (p.processedAt ≥ cutoffDate ctx weeksBack)) && p.embedding.isSome

/-- The per-historical-item loop: append an entry for every item whose
similarity reaches the threshold and track the running maximum similarity
(initial value `0.0`). -/
def collectSimilar (ctx : NovCtx) (threshold : ℚ) (emb : Emb)
    (hist : List ProcItem) : List SimilarEntry × ℚ :=
  hist.foldl
    (fun st p =>
      let sim := ctx.cos emb (p.embedding.getD [])
      let st1 :=
        if sim ≥ threshold then
          st.1 ++ [{ id := p.id
                     title := titleOf ctx p
                     similarity := sim
                     weekNumber := ctx.wk p.processedAt : SimilarEntry }]
        else st.1
      (st1, max st.2 sim))
    ([], 0)

/-- Stable insertion for a descending sort by similarity (equal keys keep
their original order, like Python's stable `list.sort(reverse=True)`). -/
def insDescBySim (x : SimilarEntry) : List SimilarEntry → List SimilarEntry
  | [] => [x]
  | y :: ys => if x.similarity ≥ y.similarity then x :: y :: ys else y :: insDescBySim x ys

/-- Python `similar_items.sort(key=..., reverse=True)` — stable descending sort. -/
def sortDescBySim : List SimilarEntry → List SimilarEntry
  | [] => []
  | x :: xs => insDescBySim x (sortDescBySim xs)

/-- The follow-up scan (novelty.py lines 115–126 / 245–253): some retained
similar item is from the current or previous `%Y-%W` period with
similarity at least the fixed `0.7` bar.  (The guard `if similar_items:`
of the single variant is subsumed: `any` of `[]` is false.) -/
def followupCheck (ctx : NovCtx) (top : List SimilarEntry) : Bool :=
  top.any (fun e =>
    ((e.weekNumber == ctx.wk ctx.now) || (e.weekNumber == ctx.wk (ctx.now - ctx.weekTicks))) &&
      decide (e.similarity ≥ 7 / 10))

/-- The `NoveltyResult` returned when there is no history to compare with. -/
def novelByDefault : NoveltyResult :=
  { isNovel := true, noveltyScore := 1, similarItems := [], isFollowup := false }

/-- The shared tail of both variants once the history list is known:
collect entries, stable-sort descending, keep the top 5, and classify. -/
def noveltyFromHistory (ctx : NovCtx) (threshold : ℚ) (emb : Emb)
    (hist : List ProcItem) : NoveltyResult :=
  let st := collectSimilar ctx threshold emb hist
  let top := (sortDescBySim st.1).take 5
  { isNovel := decide (st.2 < threshold)
    noveltyScore := 1 - st.2
    similarItems := top
    isFollowup := followupCheck ctx top }

/-- Python `check_novelty(processed_item_id, embedding, weeks_back, threshold)`. -/
def checkNovelty (ctx : NovCtx) (pid : Int) (emb : Emb)
    (weeksBack : Int) (threshold : ℚ) : NoveltyResult :=
  let historical := ctx.procs.filter (histFilterSingle ctx pid weeksBack)
  if historical.isEmpty then novelByDefault
  else noveltyFromHistory ctx threshold emb historical

/-- The `historical_metadata` list the batch variant precomputes:
`{id, title, week_number}` per historical item. -/
def batchHistMeta (ctx : NovCtx) (hist : List ProcItem) : List (Int × Option String × Int) :=
  hist.map (fun p => (p.id, titleOf ctx p, ctx.wk p.processedAt))

/-- Python `similarities = np.dot(historical_normalized, normalized)`: one exact
cosine value per historical row (zero-norm rows are guarded to 0 on both
sides, so this is the same `ctx.cos` the single variant calls). -/
def batchSims (ctx : NovCtx) (emb : Emb) (hist : List ProcItem) : List ℚ :=
  hist.map (fun p => ctx.cos emb (p.embedding.getD []))

/-- The batch variant's `for idx, sim in enumerate(similarities)` loop:
append an entry from the precomputed metadata when the similarity reaches
the threshold, tracking the running maximum (initial `0.0`). -/
def batchCollectSimilar (threshold : ℚ) (sims : List ℚ)
    (meta : List (Int × Option String × Int)) : List SimilarEntry × ℚ :=
  (sims.zip meta).foldl
    (fun st q =>
      let st1 :=
        if q.1 ≥ threshold then
          st.1 ++ [{ id := q.2.1
                     title := q.2.2.1
                     similarity := q.1
                     weekNumber := q.2.2.2 : SimilarEntry }]
        else st.1
      (st1, max st.2 q.1))
    ([], 0)

/-- The batch variant's per-item tail (novelty.py lines 212–260): compute
similarities against the shared snapshot, collect, stable-sort descending,
take the top 5 and classify — the same lines as the single variant. -/
def batchNoveltyOne (ctx : NovCtx) (threshold : ℚ) (emb : Emb)
    (hist : List ProcItem) : NoveltyResult :=
  let st := batchCollectSimilar threshold (batchSims ctx emb hist) (batchHistMeta ctx hist)
  let top := (sortDescBySim st.1).take 5
  { isNovel := decide (st.2 < threshold)
    noveltyScore := 1 - st.2
    similarItems := top
    isFollowup := followupCheck ctx top }

/-- Python `batch_check_novelty(items, weeks_back, threshold)`.  The result dict
is the association list in batch order. -/
def batchCheckNovelty (ctx : NovCtx) (items : List (Int × Emb))
    (weeksBack : Int) (threshold : ℚ) : List (Int × NoveltyResult) :=
  let ids := items.map (fun q => q.1)
  let historical := ctx.procs.filter (histFilterBatch ctx ids weeksBack)
  if historical.isEmpty then items.map (fun q => (q.1, novelByDefault))
  else items.map (fun q => (q.1, batchNoveltyOne ctx threshold q.2 historical))

/-! ### pipeline.py -/

/-- Python `Source` row (only `id` and `source_type` are read by the pipeline). -/
structure SourceRec where
  id : Int
  sourceType : String
deriving Repr, DecidableEq

/-- Python `StoryCluster` row (the columns the pipeline writes). -/
structure StoryClusterRec where
  id : Int
  weekNumber : Int
  canonicalItemId : Int
deriving Repr, DecidableEq

/-- Python `ClusterMember` row. -/
structure ClusterMemberRec where
  clusterId : Int
  processedItemId : Int
  similarityScore : ℚ
deriving Repr, DecidableEq

/-- The extraction service's structured answer (`extractor.extract`);
`themes` again stands in for the opaque payloads carried verbatim. -/
structure Extraction where
  summary : String
  keyInformation : List String
  themes : List String
deriving Repr, DecidableEq

/-- The persistent store: one list per table, plus the primary-key
counters `session.flush()` draws fresh ids from. -/
structure Store where
  sources : List SourceRec
  contentItems : List ContentItemRec
  processedItems : List ProcItem
  storyClusters : List StoryClusterRec
  clusterMembers : List ClusterMemberRec
  nextProcessedId : Int
  nextClusterId : Int
deriving Repr, DecidableEq

/-- Python `ProcessingResult` dataclass. -/
structure ProcessingResult where
  itemsProcessed : Nat
  itemsSkipped : Nat
  itemsFailed : Nat
  duplicatesFound : Nat
  clustersCreated : Nat
  errors : List String
deriving Repr, DecidableEq

/-- The freshly constructed `ProcessingResult()`. -/
def emptyResult : ProcessingResult :=
  { itemsProcessed := 0, itemsSkipped := 0, itemsFailed := 0
    duplicatesFound := 0, clustersCreated := 0, errors := [] }

/-- Ambient data of a pipeline run: the configuration thresholds, the
external extraction and embedding services (an exception is an `error`
value), exact cosine similarity, the clock / period-key data shared with
the novelty checker, and the selected clustering strategy. -/
structure PipeCtx where
  hash : HashFam
  fingerprintThreshold : ℚ
  noveltyWeeks : Int
  semanticThreshold : ℚ
  extract : String → Option String → Option String → Option String → Except String Extraction
  encode : String → Except String Emb
  cos : Emb → Emb → ℚ
  now : Int
  weekTicks : Int
  wk : Int → Int
  labelsOf : List Emb → List Int

/-- Python truthiness of `item.content_text`. -/
def truthyText : Option String → Bool
  | some s => s ≠ ""
  | none => false

/-- Membership test used when a `ContentItem` has no `ProcessedItem` yet
(the `outerjoin` + `ProcessedItem.id.is_(None)` filter). -/
def isUnprocessed (st : Store) (c : ContentItemRec) : Bool :=
  !(st.processedItems.any (fun p => p.contentItemId == c.id))

/-- The `unprocessed` query result, in table order. -/
def pipelineUnprocessed (st : Store) : List ContentItemRec :=
  st.contentItems.filter (isUnprocessed st)

/-- Step 1 per item: `if item.content_text and not item.fingerprint:
item.fingerprint = compute_fingerprint(item.content_text)`. -/
def fpUpdate (ctx : PipeCtx) (c : ContentItemRec) : ContentItemRec :=
  if truthyText c.contentText && c.fingerprint.isNone then
    { c with fingerprint := computeFingerprint ctx.hash (c.contentText.getD "") }
  else c

/-- The `unprocessed` list after the fingerprint pass (the same ORM
objects, mutated in place). -/
def pipelineUnprocessed1 (ctx : PipeCtx) (st : Store) : List ContentItemRec :=
  (pipelineUnprocessed st).map (fpUpdate ctx)

/-- The committed `content_items` table after the fingerprint pass. -/
def pipelineContentItems1 (ctx : PipeCtx) (st : Store) : List ContentItemRec :=
  st.contentItems.map (fun c => if isUnprocessed st c then fpUpdate ctx c else c)

/-- Insertion into the Python `set` of already-grouped ids. -/
def insertId (x : Int) (s : List Int) : List Int := if x ∈ s then s else x :: s

/-- The inner `for j, item2 in enumerate(items)` scan of
`_find_duplicates`, restricted (by the `i >= j` guard) to the items after
`item1`; grows the group and the `processed` id set. -/
def dupScan (ctx : PipeCtx) (item1 : ContentItemRec) (rest : List ContentItemRec)
    (seen : List Int) : List ContentItemRec × List Int :=
  rest.foldl
    (fun st item2 =>
      if item2.id ∈ st.2 || item2.fingerprint.isNone then st
      else if (areFingerprintsSimilar item1.fingerprint item2.fingerprint
                ctx.fingerprintThreshold).getD false then
        (st.1 ++ [item2], insertId item2.id st.2)
      else st)
    ([item1], insertId item1.id seen)

/-- Python `_find_duplicates(items)`: greedy grouping by stored-fingerprint
similarity; only groups with more than one member are reported. -/
def findDuplicates (ctx : PipeCtx) : List ContentItemRec → List Int → List (List ContentItemRec)
  | [], _ => []
  | item1 :: rest, seen =>
    if item1.id ∈ seen || item1.fingerprint.isNone then findDuplicates ctx rest seen
    else
      let p := dupScan ctx item1 rest seen
      if p.1.length > 1 then p.1 :: findDuplicates ctx rest p.2
      else findDuplicates ctx rest p.2

/-- Python `published_at or datetime.max` as an order: a missing date sorts after
every present one. -/
def pubLe (a b : Option Int) : Bool :=
  match b with
  | none => true
  | some y =>
    match a with
    | none => false
    | some x => x ≤ y

/-- Stable ascending insertion by `published_at` (Python's stable
`sorted`). -/
def insByPub (x : ContentItemRec) : List ContentItemRec → List ContentItemRec
  | [] => [x]
  | y :: ys => if pubLe x.publishedAt y.publishedAt then x :: y :: ys else y :: insByPub x ys

/-- Python `sorted(dup_group, key=lambda x: x.published_at or datetime.max)`. -/
def sortByPub : List ContentItemRec → List ContentItemRec
  | [] => []
  | x :: xs => insByPub x (sortByPub xs)

/-- The `skip_ids` set: everything but the earliest member of each
duplicate group. -/
def pipelineSkipIds (ctx : PipeCtx) (st : Store) : List Int :=
  (findDuplicates ctx (pipelineUnprocessed1 ctx st) []).foldl
    (fun acc group => ((sortByPub group).drop 1).foldl (fun a it => insertId it.id a) acc)
    []

/-- Python `items_to_process = [i for i in unprocessed if i.id not in skip_ids]`. -/
def pipelineItemsToProcess (ctx : PipeCtx) (st : Store) : List ContentItemRec :=
  (pipelineUnprocessed1 ctx st).filter (fun i => !(decide (i.id ∈ pipelineSkipIds ctx st)))

/-- The body of the per-item `try:` block up to the external calls: look
up the source type, call the extraction service on the (possibly empty)
text, then embed the summary.  Any raised exception surfaces as `error`. -/
def processOne (ctx : PipeCtx) (sources : List SourceRec)
    (item : ContentItemRec) : Except String (Extraction × Emb) := do
  let sourceType := (sources.find? (fun s => s.id == item.sourceId)).map (fun s => s.sourceType)
  let ex ← ctx.extract (item.contentText.getD "") item.title item.author sourceType
  let emb ← ctx.encode ex.summary
  pure (ex, emb)

/-- Python interpolation of an `Optional[str]` title into the error
message. -/
def titleStr : Option String → String
  | some t => t
  | none => "None"

/-- Python `f"Failed to process {item.title}: {e}"`. -/
def failMsg (item : ContentItemRec) (e : String) : String :=
  "Failed to process " ++ titleStr item.title ++ ": " ++ e

/-- The new `ProcessedItem` row created for a successful item
(`processed_at` defaults to `datetime.utcnow()`). -/
def mkProcItem (ctx : PipeCtx) (nid : Int) (item : ContentItemRec)
    (ex : Extraction) (emb : Emb) : ProcItem :=
  { id := nid
    contentItemId := item.id
    summary := ex.summary
    keyInformation := ex.keyInformation
    themes := ex.themes
    embedding := some emb
    processedAt := ctx.now }

/-- Output of the Step-3 loop over `items_to_process`. -/
structure LoopOut where
  newItems : List (ProcItem × Emb)
  nextId : Int
  processedCount : Nat
  failedCount : Nat
  errorMsgs : List String
deriving Repr, DecidableEq

/-- Step 3 (pipeline.py lines 126–165): process each item, catching any
exception of the external calls per item — a failure is counted and
recorded and the loop continues with the remaining items. -/
def processLoop (ctx : PipeCtx) (sources : List SourceRec) :
    List ContentItemRec → Int → LoopOut
  | [], nid => ⟨[], nid, 0, 0, []⟩
  | item :: rest, nid =>
    match processOne ctx sources item with
    | .ok (ex, emb) =>
      let r := processLoop ctx sources rest (nid + 1)
      ⟨(mkProcItem ctx nid item ex emb, emb) :: r.newItems, r.nextId,
        r.processedCount + 1, r.failedCount, r.errorMsgs⟩
    | .error e =>
      let r := processLoop ctx sources rest nid
      ⟨r.newItems, r.nextId, r.processedCount, r.failedCount + 1,
        failMsg item e :: r.errorMsgs⟩

/-- Step 4 annotation of one freshly created item: append the follow-up
marker to `key_information` when its novelty result says so. -/
def annotateItem (nres : List (Int × NoveltyResult)) (p : ProcItem) : ProcItem :=
  match nres.find? (fun r => r.1 == p.id) with
  | some r =>
    if r.2.isFollowup then { p with keyInformation := p.keyInformation ++ ["[Follow-up story]"] }
    else p
  | none => p

/-- Python `_create_clusters(session, processed_items, week_number)`: cluster the
run's embeddings with `min_cluster_size=2`, and per kept cluster create a
`StoryCluster` row pointing at the representative item and one
`ClusterMember` row per member with the constant scores `1.0`
(representative) / `0.9` (other members).  This is the per-cluster step of
the loop. -/
def clusterRowStep (w : Int) (items : List ProcItem)
    (st : List StoryClusterRec × List ClusterMemberRec × Int × Nat)
    (cluster : Cluster) :
    List StoryClusterRec × List ClusterMemberRec × Int × Nat :=
  if cluster.itemIndices.length < 2 then st
  else
    let canonicalIdx := cluster.representativeIdx
    let canonicalItem := items.getD canonicalIdx default
    let sc : StoryClusterRec :=
      { id := st.2.2.1, weekNumber := w, canonicalItemId := canonicalItem.id }
    let newMems := cluster.itemIndices.map (fun idx =>
      ({ clusterId := st.2.2.1
         processedItemId := (items.getD idx default).id
         similarityScore := if idx = canonicalIdx then 1 else 9 / 10 } : ClusterMemberRec))
    (st.1 ++ [sc], st.2.1 ++ newMems, st.2.2.1 + 1, st.2.2.2 + 1)

/-- Python `_create_clusters(session, processed_items, week_number)`:
with fewer than two processed items nothing is created; otherwise the
run's embeddings are clustered with `min_cluster_size=2` and the row loop
runs per cluster.  Returns the new rows, the next cluster id and the
created count. -/
def createClusters (ctx : PipeCtx) (w : Int) (cid0 : Int)
    (pis : List (ProcItem × Emb)) :
    List StoryClusterRec × List ClusterMemberRec × Int × Nat :=
  if pis.length < 2 then ([], [], cid0, 0)
  else
    let embeddings := pis.map (fun q => q.2)
    let items := pis.map (fun q => q.1)
    let cres := clusterItems ctx.labelsOf embeddings 2
    cres.clusters.foldl (clusterRowStep w items) ([], [], cid0, 0)

/-- The Step-3 loop run on the pipeline's `items_to_process`. -/
def pipelineLoopOut (ctx : PipeCtx) (st : Store) : LoopOut :=
  processLoop ctx st.sources (pipelineItemsToProcess ctx st) st.nextProcessedId

/-- Steps 4–5 input: the freshly created items after the novelty
annotation (novelty runs once over all new items, against the store as
committed after Step 3, i.e. including the new rows themselves). -/
def pipelineAnnotated (ctx : PipeCtx) (st : Store) : List (ProcItem × Emb) :=
  let newPIs := (pipelineLoopOut ctx st).newItems
  if newPIs.isEmpty then newPIs
  else
    let nctx : NovCtx :=
      { cos := ctx.cos, now := ctx.now, weekTicks := ctx.weekTicks, wk := ctx.wk
        contents := pipelineContentItems1 ctx st
        procs := st.processedItems ++ newPIs.map (fun q => q.1) }
    let nres := batchCheckNovelty nctx (newPIs.map (fun q => (q.1.id, q.2)))
      ctx.noveltyWeeks ctx.semanticThreshold
    newPIs.map (fun q => (annotateItem nres q.1, q.2))

/-- The Step-5 rows (empty when no item was processed, mirroring the
`if processed_items:` guard). -/
def pipelineClusterRows (ctx : PipeCtx) (w : Int) (st : Store) :
    List StoryClusterRec × List ClusterMemberRec × Int × Nat :=
  let annotated := pipelineAnnotated ctx st
  if annotated.isEmpty then ([], [], st.nextClusterId, 0)
  else createClusters ctx w st.nextClusterId annotated

/-- The store as left by a (non-trivial) run. -/
def pipelineFinalStore (ctx : PipeCtx) (w : Int) (st : Store) : Store :=
  let rows := pipelineClusterRows ctx w st
  { sources := st.sources
    contentItems := pipelineContentItems1 ctx st
    processedItems := st.processedItems ++ (pipelineAnnotated ctx st).map (fun q => q.1)
    storyClusters := st.storyClusters ++ rows.1
    clusterMembers := st.clusterMembers ++ rows.2.1
    nextProcessedId := (pipelineLoopOut ctx st).nextId
    nextClusterId := rows.2.2.1 }

/-- The `ProcessingResult` of a (non-trivial) run. -/
def pipelineRunResult (ctx : PipeCtx) (w : Int) (st : Store) : ProcessingResult :=
  { itemsProcessed := (pipelineLoopOut ctx st).processedCount
    itemsSkipped := (pipelineSkipIds ctx st).length
    itemsFailed := (pipelineLoopOut ctx st).failedCount
    duplicatesFound := (findDuplicates ctx (pipelineUnprocessed1 ctx st) []).length
    clustersCreated := (pipelineClusterRows ctx w st).2.2.2
    errors := (pipelineLoopOut ctx st).errorMsgs }

/-- Python `ProcessingPipeline.process_new_items(week_number)`: an early return
with a fresh result when nothing is unprocessed, otherwise the five-step
run. -/
def processNewItems (ctx : PipeCtx) (w : Int) (st : Store) : Store × ProcessingResult :=
  if (pipelineUnprocessed st).isEmpty then (st, emptyResult)
  else (pipelineFinalStore ctx w st, pipelineRunResult ctx w st)

/-! ### General lemmas -/

/-- Zipping a list with itself matches every slot. -/
theorem countP_zip_self (l : List Nat) :
    (l.zip l).countP (fun q => q.1 = q.2) = l.length := by
  induction l with
  | nil => rfl
  | cons x xs ih => simp [List.countP_cons, ih]

/-- A MinHash signature always has `numPermutations` slots. -/
theorem computeMinhash_length (h : HashFam) (t : String) :
    (computeMinhash h t).length = numPermutations := by
  simp [computeMinhash]

/-- Comparing any signature with itself gives similarity `1`. -/
theorem jaccardOfSlots_self (a : List Nat) (ha : a.length ≠ 0) :
    jaccardOfSlots a a = 1 := by
  unfold jaccardOfSlots
  rw [countP_zip_self]
  rw [div_self (by exact_mod_cast ha)]

/-! ### Claim C10 -/

/-- C10: whenever the number of input embeddings is smaller than
`min_cluster_size`, `cluster_items` returns no clusters, the label `-1`
for every input, and every input index in `noise_indices` — in
particular an empty or single-item batch (with the default
`min_cluster_size = 2`) always yields no clusters and no error. -/
theorem C10_small_batch_noise (labelsOf : List Emb → List Int)
    (embeddings : List Emb) (minClusterSize : Nat)
    (h : embeddings.length < minClusterSize) :
    clusterItems labelsOf embeddings minClusterSize =
      { clusters := []
        labels := List.replicate embeddings.length (-1)
        noiseIndices := List.range embeddings.length } := by
  simp [clusterItems, h]

/-- Witness for C10 at a concrete single-item batch. -/
theorem C10_small_batch_noise_witness :
    ([[(1 : ℚ)]] : List Emb).length < 2 ∧
      clusterItems (fun _ => []) [[(1 : ℚ)]] 2 =
        { clusters := [], labels := List.replicate 1 (-1), noiseIndices := List.range 1 } :=
  ⟨by decide, C10_small_batch_noise (fun _ => []) [[(1 : ℚ)]] 2 (by decide)⟩

/-! ### Claim C5 -/

/-- C5 (code_bug evidence): `are_near_duplicates` on two empty texts
returns `True` for every threshold at most `1` (in particular for the
default threshold `0.8`), because the two fresh MinHash signatures are
identical (every slot the `maxHashVal` sentinel) and hence compare with
similarity `1.0` — the raw-text comparison path has no empty-text guard,
so the claim's "never judged near-duplicates" fails.  (Only the
stored-fingerprint path honours the empty sentinel.) -/
theorem C5_empty_texts_near_duplicates (h : HashFam) (t : ℚ) (ht : t ≤ 1) :
    areNearDuplicates h "" "" t = true := by
  have hsim : computeSimilarity h "" "" = 1 := by
    unfold computeSimilarity
    exact jaccardOfSlots_self _ (by rw [computeMinhash_length]; decide)
  unfold areNearDuplicates
  rw [hsim]
  exact decide_eq_true ht

/-- Witness for C5 at the default threshold. -/
theorem C5_empty_texts_near_duplicates_witness :
    ((8 : ℚ) / 10 ≤ 1) ∧ areNearDuplicates (fun _ _ => 0) "" "" (8 / 10) = true :=
  ⟨by norm_num, C5_empty_texts_near_duplicates (fun _ _ => 0) (8 / 10) (by norm_num)⟩

/-! ### Claim C9 -/

/-- The `argmin` scan keeps the best index strictly below the running
counter, which advances once per scanned element. -/
theorem argminStep_fold (xs : List ℚ) :
    ∀ st : Nat × ℚ × Nat, st.1 < st.2.2 →
      (xs.foldl argminStep st).1 < (xs.foldl argminStep st).2.2 ∧
        (xs.foldl argminStep st).2.2 = st.2.2 + xs.length := by
  induction xs with
  | nil => intro st h; simpa using h
  | cons x xs ih =>
    intro st h
    rw [List.foldl_cons]
    by_cases hx : x < st.2.1
    · have hr := ih (st.2.2, x, st.2.2 + 1) (Nat.lt_succ_self _)
      refine ⟨by simpa [argminStep, hx] using hr.1, ?_⟩
      have := hr.2
      simp only [argminStep, if_pos hx] at this ⊢
      simp [this, List.length_cons]
      omega
    · have hr := ih (st.1, st.2.1, st.2.2 + 1) (Nat.lt_succ_of_lt h)
      refine ⟨by simpa [argminStep, hx] using hr.1, ?_⟩
      have := hr.2
      simp only [argminStep, if_neg hx] at this ⊢
      simp [this, List.length_cons]
      omega

/-- On a non-empty list `np.argmin` returns a valid position. -/
theorem argminPos_lt (l : List ℚ) (h : l ≠ []) : argminPos l < l.length := by
  match l with
  | v :: rest =>
    have hf := argminStep_fold rest (0, v, 1) Nat.zero_lt_one
    simp only [argminPos]
    calc (rest.foldl argminStep (0, v, 1)).1
        < (rest.foldl argminStep (0, v, 1)).2.2 := hf.1
      _ = 1 + rest.length := hf.2
      _ = (v :: rest).length := by simp [List.length_cons]; omega

/-- Reading a valid position with a default yields a member. -/
theorem getD_mem_of_lt {α : Type} (l : List α) (i : Nat) (d : α)
    (h : i < l.length) : l.getD i d ∈ l := by
  rw [List.getD_eq_getElem l d h]
  exact List.getElem_mem h

/-- When the stored processed-item ids are pairwise distinct (the
primary-key invariant; the pipeline allocates them from an increasing
counter), equal ids at valid positions force equal positions. -/
theorem procItems_id_inj (items : List ProcItem)
    (hnodup : (items.map (fun p => p.id)).Nodup)
    (i j : Nat) (hi : i < items.length) (hj : j < items.length)
    (h : (items.getD i default).id = (items.getD j default).id) : i = j := by
  have hi2 : i < (items.map (fun p => p.id)).length := by simpa using hi
  have hj2 : j < (items.map (fun p => p.id)).length := by simpa using hj
  apply (@List.Nodup.getElem_inj_iff _ (items.map (fun p => p.id)) hnodup i hi2 j hj2).1
  rw [List.getElem_map, List.getElem_map, ← List.getD_eq_getElem items default hi,
    ← List.getD_eq_getElem items default hj]
  exact h

/-- The representative chosen by `buildCluster` is one of the cluster's
member indices. -/
theorem buildCluster_rep_mem (embeddings : List Emb) (labels : List Int) (lab : Int)
    (h : (buildCluster embeddings labels lab).itemIndices ≠ []) :
    (buildCluster embeddings labels lab).representativeIdx ∈
      (buildCluster embeddings labels lab).itemIndices := by
  simp only [buildCluster] at h ⊢
  apply getD_mem_of_lt
  have hl : (((idxWhere labels lab).map (fun i => embeddings.getD i [])).map
      (fun e => sqDist e (meanVec ((idxWhere labels lab).map (fun i => embeddings.getD i []))))).length
      = (idxWhere labels lab).length := by
    simp
  rw [← hl]
  apply argminPos_lt
  intro hnil
  apply h
  have := congrArg List.length hnil
  simp at this
  exact this

/-- Every cluster of `clusterItems` is built by `buildCluster`, so its
representative is a member index whenever it has members. -/
theorem clusterItems_rep_mem (labelsOf : List Emb → List Int)
    (embeddings : List Emb) (mcs : Nat) :
    ∀ c ∈ (clusterItems labelsOf embeddings mcs).clusters,
      c.itemIndices ≠ [] → c.representativeIdx ∈ c.itemIndices := by
  intro c hc
  unfold clusterItems at hc
  by_cases hsz : embeddings.length < mcs
  · simp [hsz] at hc
  · simp only [if_neg hsz] at hc
    rcases List.mem_map.1 hc with ⟨lab, _, rfl⟩
    exact buildCluster_rep_mem embeddings (labelsOf embeddings) lab

/-- The cluster-row loop writes exactly the canonical-membership scores:
when the stored item ids are pairwise distinct and every member index is
a valid position, each created row scores `1` precisely if its processed
item is its cluster's canonical item and `9/10` otherwise, and each
created `StoryCluster` has a score-`1` member row for its canonical
item. -/
theorem clusterRowFold_spec (w : Int) (items : List ProcItem)
    (hnodup : (items.map (fun p => p.id)).Nodup) :
    ∀ (clusters : List Cluster),
      (∀ c ∈ clusters, c.itemIndices ≠ [] → c.representativeIdx ∈ c.itemIndices) →
      (∀ c ∈ clusters, ∀ idx ∈ c.itemIndices, idx < items.length) →
      ∀ st : List StoryClusterRec × List ClusterMemberRec × Int × Nat,
        (∀ m ∈ st.2.1, ∃ sc ∈ st.1, m.clusterId = sc.id ∧
          m.similarityScore =
            (if m.processedItemId = sc.canonicalItemId then 1 else 9 / 10)) →
        (∀ sc ∈ st.1, ∃ m ∈ st.2.1,
          m.clusterId = sc.id ∧ m.processedItemId = sc.canonicalItemId ∧ m.similarityScore = 1) →
        ((∀ m ∈ (clusters.foldl (clusterRowStep w items) st).2.1,
            ∃ sc ∈ (clusters.foldl (clusterRowStep w items) st).1, m.clusterId = sc.id ∧
              m.similarityScore =
                (if m.processedItemId = sc.canonicalItemId then 1 else 9 / 10)) ∧
         (∀ sc ∈ (clusters.foldl (clusterRowStep w items) st).1,
            ∃ m ∈ (clusters.foldl (clusterRowStep w items) st).2.1,
              m.clusterId = sc.id ∧ m.processedItemId = sc.canonicalItemId ∧
                m.similarityScore = 1)) := by
  intro clusters
  induction clusters with
  | nil => intro _ _ st h1 h2; exact ⟨h1, h2⟩
  | cons c cs ih =>
    intro hrep hbnd st h1 h2
    rw [List.foldl_cons]
    refine ih (fun d hd => hrep d (List.mem_cons_of_mem _ hd))
      (fun d hd => hbnd d (List.mem_cons_of_mem _ hd)) _ ?_ ?_
    · intro m hm
      unfold clusterRowStep at hm ⊢
      by_cases hlen : c.itemIndices.length < 2
      · rw [if_pos hlen] at hm ⊢
        exact h1 m hm
      · simp only [if_neg hlen] at hm ⊢
        rcases List.mem_append.1 hm with hold | hnew
        · rcases h1 m hold with ⟨sc, hsc, hprop⟩
          exact ⟨sc, List.mem_append_left _ hsc, hprop⟩
        · rcases List.mem_map.1 hnew with ⟨idx, hidx, rfl⟩
          have hne : c.itemIndices ≠ [] := by
            intro hnil
            rw [hnil] at hlen
            exact hlen (by decide)
          have hrepmem := hrep c (List.mem_cons_self _ _) hne
          refine ⟨⟨st.2.2.1, w, (items.getD c.representativeIdx default).id⟩,
            List.mem_append_right _ (List.mem_singleton.2 rfl), rfl, ?_⟩
          by_cases hidr : idx = c.representativeIdx
          · simp [hidr]
          · have hidlt := hbnd c (List.mem_cons_self _ _) idx hidx
            have hreplt := hbnd c (List.mem_cons_self _ _) _ hrepmem
            have hidne : (items.getD idx default).id ≠
                (items.getD c.representativeIdx default).id := by
              intro hEq
              exact hidr
                (procItems_id_inj items hnodup idx c.representativeIdx hidlt hreplt hEq)
            rw [if_neg hidr, if_neg hidne]
    · intro sc hsc
      unfold clusterRowStep at hsc ⊢
      by_cases hlen : c.itemIndices.length < 2
      · simp only [if_pos hlen] at hsc ⊢
        exact h2 sc hsc
      · simp only [if_neg hlen] at hsc ⊢
        rcases List.mem_append.1 hsc with hold | hnew
        · rcases h2 sc hold with ⟨m, hm, hprop⟩
          exact ⟨m, List.mem_append_left _ hm, hprop⟩
        · have hscEq : sc =
              (⟨st.2.2.1, w, (items.getD c.representativeIdx default).id⟩ : StoryClusterRec) := by
            simpa using hnew
          have hne : c.itemIndices ≠ [] := by
            intro hnil
            rw [hnil] at hlen
            exact hlen (by decide)
          refine ⟨{ clusterId := st.2.2.1
                    processedItemId := (items.getD c.representativeIdx default).id
                    similarityScore := 1 }, ?_, ?_⟩
          · apply List.mem_append_right
            refine List.mem_map.2 ⟨c.representativeIdx, hrep c (List.mem_cons_self _ _) hne, ?_⟩
            simp
          · simp [hscEq]

/-- The concrete context of the C9 witness: two identical embeddings and
the fallback strategy with an all-ones similarity matrix. -/
def c9Ctx : PipeCtx :=
  { hash := fun _ _ => 0, fingerprintThreshold := 8 / 10, noveltyWeeks := 4
    semanticThreshold := 17 / 20
    extract := fun _ _ _ _ => Except.error "unused"
    encode := fun _ => Except.error "unused"
    cos := fun _ _ => 0, now := 0, weekTicks := 1, wk := fun t => t
    labelsOf := fun es => thresholdClustering (fun _ _ => 1) (1 / 2) es.length }

/-- The two processed items of the C9 witness. -/
def c9Items : List (ProcItem × Emb) :=
  [(⟨7, 1, "a", [], [], some [1], 0⟩, [1]), (⟨8, 2, "b", [], [], some [1], 0⟩, [1])]

/-! ### Claim C6 -/

/-- Unfolding lemma: the member list of a built cluster is the
`np.where` result. -/
theorem buildCluster_itemIndices (embeddings : List Emb) (labels : List Int) (lab : Int) :
    (buildCluster embeddings labels lab).itemIndices = idxWhere labels lab := rfl

/-- Membership in the shifted `np.where` enumeration. -/
theorem idxWhereAux_mem (l : List Int) (v : Int) :
    ∀ (k i : Nat), i ∈ idxWhereAux l v k ↔ k ≤ i ∧ l[i - k]? = some v := by
  induction l with
  | nil => intro k i; simp [idxWhereAux]
  | cons x xs ih =>
    intro k i
    unfold idxWhereAux
    by_cases hx : x = v
    · simp only [if_pos hx]
      constructor
      · intro hmem
        rcases List.mem_cons.1 hmem with rfl | hmem'
        · exact ⟨Nat.le_refl _, by simp [Nat.sub_self, hx]⟩
        · rcases (ih (k + 1) i).1 hmem' with ⟨hki, hget⟩
          refine ⟨by omega, ?_⟩
          rw [show i - k = (i - (k + 1)) + 1 by omega]
          simpa using hget
      · rintro ⟨hki, hget⟩
        rcases Nat.eq_or_lt_of_le hki with rfl | hlt
        · exact List.mem_cons_self _ _
        · apply List.mem_cons_of_mem
          apply (ih (k + 1) i).2
          refine ⟨by omega, ?_⟩
          rw [show i - k = (i - (k + 1)) + 1 by omega] at hget
          simpa using hget
    · simp only [if_neg hx]
      rw [ih (k + 1) i]
      constructor
      · rintro ⟨hki, hget⟩
        refine ⟨by omega, ?_⟩
        rw [show i - k = (i - (k + 1)) + 1 by omega]
        simpa using hget
      · rintro ⟨hki, hget⟩
        have hik : i ≠ k := by
          rintro rfl
          rw [Nat.sub_self] at hget
          simp at hget
          exact hx hget
        refine ⟨by omega, ?_⟩
        rw [show i - k = (i - (k + 1)) + 1 by omega] at hget
        simpa using hget

/-- Membership in the `np.where` result is exactly "the label at that
index has that value". -/
theorem idxWhere_mem (labels : List Int) (v : Int) (i : Nat) :
    i ∈ idxWhere labels v ↔ labels[i]? = some v := by
  rw [idxWhere, idxWhereAux_mem]
  simp

/-- Every index of the shifted enumeration is at least the shift. -/
theorem idxWhereAux_ge (l : List Int) (v : Int) (k : Nat) :
    ∀ i ∈ idxWhereAux l v k, k ≤ i := fun i hi => ((idxWhereAux_mem l v k i).1 hi).1

/-- An `np.where` result never repeats an index. -/
theorem idxWhereAux_nodup (l : List Int) (v : Int) : ∀ k, (idxWhereAux l v k).Nodup := by
  induction l with
  | nil => intro k; simp [idxWhereAux]
  | cons x xs ih =>
    intro k
    unfold idxWhereAux
    by_cases hx : x = v
    · simp only [if_pos hx]
      refine List.nodup_cons.2 ⟨fun hmem => ?_, ih (k + 1)⟩
      have := idxWhereAux_ge xs v (k + 1) k hmem
      omega
    · simpa only [if_neg hx] using ih (k + 1)

/-- The `np.where` result never repeats an index. -/
theorem idxWhere_nodup (labels : List Int) (v : Int) : (idxWhere labels v).Nodup :=
  idxWhereAux_nodup labels v 0

/-- Inserting into a sorted list permutes consing. -/
theorem insertAsc_perm (x : Int) (l : List Int) : List.Perm (insertAsc x l) (x :: l) := by
  induction l with
  | nil => exact List.Perm.refl _
  | cons y ys ih =>
    unfold insertAsc
    by_cases hxy : x ≤ y
    · simp only [if_pos hxy]
      exact List.Perm.refl _
    · simp only [if_neg hxy]
      exact (ih.cons y).trans (List.Perm.swap x y ys)

/-- Sorting permutes. -/
theorem sortAsc_perm (l : List Int) : List.Perm (sortAsc l) l := by
  induction l with
  | nil => exact List.Perm.refl _
  | cons x xs ih => exact (insertAsc_perm x (sortAsc xs)).trans (ih.cons x)

/-- Membership in `sorted(set(labels) - {-1})`. -/
theorem mem_uniqueSortedLabels (labels : List Int) (y : Int) :
    y ∈ uniqueSortedLabels labels ↔ y ∈ labels ∧ y ≠ -1 := by
  unfold uniqueSortedLabels
  rw [(sortAsc_perm _).mem_iff]
  simp [List.mem_filter, List.mem_dedup]

/-- The label list `sorted(set(labels) - {-1})` has no duplicates. -/
theorem uniqueSortedLabels_nodup (labels : List Int) : (uniqueSortedLabels labels).Nodup := by
  unfold uniqueSortedLabels
  exact ((sortAsc_perm _).nodup_iff).2 ((labels.nodup_dedup).filter _)

/-- C6: for every batch of embeddings whose label assignment has one
label per input (true of both the HDBSCAN contract and the fallback),
every input index of the clustering result lies in exactly one cluster's
member list or exactly once in `noise_indices`: the per-index count over
all clusters plus the noise count is exactly `1`. -/
theorem C6_partition (labelsOf : List Emb → List Int) (embeddings : List Emb)
    (mcs : Nat) (hlen : (labelsOf embeddings).length = embeddings.length)
    (i : Nat) (hi : i < embeddings.length) :
    ((clusterItems labelsOf embeddings mcs).clusters.countP
        (fun c => decide (i ∈ c.itemIndices))) +
      ((clusterItems labelsOf embeddings mcs).noiseIndices.count i) = 1 := by
  by_cases hsz : embeddings.length < mcs
  · simp only [clusterItems, if_pos hsz]
    have h1 : (List.range embeddings.length).count i = 1 :=
      List.count_eq_one_of_mem (List.nodup_range _) (List.mem_range.2 hi)
    simpa using h1
  · simp only [clusterItems, if_neg hsz]
    have hilab : i < (labelsOf embeddings).length := by rw [hlen]; exact hi
    obtain ⟨y, hy⟩ : ∃ y, (labelsOf embeddings)[i]? = some y :=
      ⟨(labelsOf embeddings).getD i 0, by
        rw [List.getD_eq_getElem _ _ hilab]
        exact List.getElem?_eq_getElem hilab⟩
    have hymem : y ∈ labelsOf embeddings := List.getElem?_mem hy
    have hc : ((uniqueSortedLabels (labelsOf embeddings)).map
          (buildCluster embeddings (labelsOf embeddings))).countP
          (fun c => decide (i ∈ c.itemIndices)) = if y = -1 then 0 else 1 := by
      rw [List.countP_map]
      have hcong : ∀ lab ∈ uniqueSortedLabels (labelsOf embeddings),
          (((fun c => decide (i ∈ c.itemIndices)) ∘ buildCluster embeddings (labelsOf embeddings)) lab ↔
            ((lab == y) : Bool)) := by
        intro lab _
        simp only [Function.comp, buildCluster_itemIndices, decide_eq_true_eq, beq_iff_eq]
        rw [idxWhere_mem, hy]
        exact ⟨fun hsome => (Option.some_inj.1 hsome).symm, fun hl => by rw [hl]⟩
      rw [List.countP_congr hcong]
      by_cases hym : y = -1
      · rw [if_pos hym]
        have hnot : y ∉ uniqueSortedLabels (labelsOf embeddings) := by
          rw [mem_uniqueSortedLabels]
          rintro ⟨_, hne⟩
          exact hne hym
        simpa [List.count] using List.count_eq_zero_of_not_mem hnot
      · rw [if_neg hym]
        have hmem : y ∈ uniqueSortedLabels (labelsOf embeddings) :=
          (mem_uniqueSortedLabels _ _).2 ⟨hymem, hym⟩
        simpa [List.count] using
          List.count_eq_one_of_mem (uniqueSortedLabels_nodup _) hmem
    have hn : (idxWhere (labelsOf embeddings) (-1)).count i = if y = -1 then 1 else 0 := by
      by_cases hym : y = -1
      · rw [if_pos hym]
        refine List.count_eq_one_of_mem (idxWhere_nodup _ _) ?_
        rw [idxWhere_mem, hy, hym]
      · rw [if_neg hym]
        apply List.count_eq_zero_of_not_mem
        rw [idxWhere_mem, hy]
        intro hsome
        exact hym (Option.some_inj.1 hsome)
    rw [hc, hn]
    by_cases hym : y = -1 <;> simp [hym]

/-- Witness for C6 on a concrete fallback run (three items, two
clustered, one noise), checked at index 2. -/
theorem C6_partition_witness :
    ((fallbackLabels (fun i j => if (i = 0 ∧ j = 1) ∨ (i = 1 ∧ j = 0) ∨ i = j then 1 else 0)
        (17 / 20) [[(1 : ℚ)], [1], [2]]).length = ([[(1 : ℚ)], [1], [2]] : List Emb).length) ∧
    (2 < ([[(1 : ℚ)], [1], [2]] : List Emb).length) ∧
    (((clusterItems
        (fallbackLabels (fun i j => if (i = 0 ∧ j = 1) ∨ (i = 1 ∧ j = 0) ∨ i = j then 1 else 0)
          (17 / 20)) [[(1 : ℚ)], [1], [2]] 2).clusters.countP
          (fun c => decide (2 ∈ c.itemIndices))) +
      ((clusterItems
        (fallbackLabels (fun i j => if (i = 0 ∧ j = 1) ∨ (i = 1 ∧ j = 0) ∨ i = j then 1 else 0)
          (17 / 20)) [[(1 : ℚ)], [1], [2]] 2).noiseIndices.count 2) = 1) :=
  ⟨by with_unfolding_all decide, by decide,
    C6_partition _ [[(1 : ℚ)], [1], [2]] 2 (by with_unfolding_all decide) 2 (by decide)⟩

/-! ### Claim C9 (statement) -/

/-- Every `np.where` index is a valid position of the label list. -/
theorem idxWhere_lt (labels : List Int) (v : Int) :
    ∀ i ∈ idxWhere labels v, i < labels.length := by
  intro i hi
  by_contra hge
  push_neg at hge
  rw [idxWhere_mem] at hi
  rw [List.getElem?_eq_none hge] at hi
  exact absurd hi (by simp)

/-- C9: every `ClusterMember` row persisted by the pipeline's cluster
step stores the constant canonical-membership score — exactly `1.0` when
the row's processed item is its cluster's representative (canonical)
item and exactly `0.9` for every other member — independent of any
actual embedding similarity (the statement quantifies over arbitrary
embeddings and clustering strategies).  The hypotheses are the stored
primary-key invariant (distinct processed-item ids; the pipeline
allocates them from an increasing counter) and the one-label-per-input
contract of the selected strategy (proved outright for the fallback). -/
theorem C9_constant_member_scores (ctx : PipeCtx) (w : Int) (cid0 : Int)
    (pis : List (ProcItem × Emb))
    (hlen : (ctx.labelsOf (pis.map (fun q => q.2))).length = pis.length)
    (hnodup : (pis.map (fun q => q.1.id)).Nodup) :
    (∀ m ∈ (createClusters ctx w cid0 pis).2.1,
        ∃ sc ∈ (createClusters ctx w cid0 pis).1,
          m.clusterId = sc.id ∧
            m.similarityScore =
              (if m.processedItemId = sc.canonicalItemId then 1 else 9 / 10)) ∧
    (∀ sc ∈ (createClusters ctx w cid0 pis).1,
        ∃ m ∈ (createClusters ctx w cid0 pis).2.1,
          m.clusterId = sc.id ∧ m.processedItemId = sc.canonicalItemId ∧
            m.similarityScore = 1) := by
  unfold createClusters
  by_cases hsz : pis.length < 2
  · simp [hsz]
  · simp only [if_neg hsz]
    have hnodup2 : ((pis.map (fun q => q.1)).map (fun p => p.id)).Nodup := by
      rw [List.map_map]
      exact hnodup
    have hbnd : ∀ c ∈ (clusterItems ctx.labelsOf (pis.map (fun q => q.2)) 2).clusters,
        ∀ idx ∈ c.itemIndices, idx < (pis.map (fun q => q.1)).length := by
      intro c hc idx hidx
      unfold clusterItems at hc
      simp only [List.length_map] at hc
      rw [if_neg hsz] at hc
      rcases List.mem_map.1 hc with ⟨lab, _, rfl⟩
      rw [buildCluster_itemIndices] at hidx
      have hlt := idxWhere_lt (ctx.labelsOf (pis.map (fun q => q.2))) lab idx hidx
      rw [hlen] at hlt
      simpa using hlt
    exact clusterRowFold_spec w (pis.map (fun q => q.1)) hnodup2 _
      (clusterItems_rep_mem ctx.labelsOf (pis.map (fun q => q.2)) 2)
      hbnd ([], [], cid0, 0) (by simp) (by simp)

/-- Witness for C9 on a concrete two-item cluster run, at the
non-representative member (which must score exactly `9/10`). -/
theorem C9_constant_member_scores_witness :
    (({ clusterId := 1, processedItemId := 8, similarityScore := 9 / 10 } : ClusterMemberRec) ∈
        (createClusters c9Ctx 0 1 c9Items).2.1) ∧
      (∃ sc ∈ (createClusters c9Ctx 0 1 c9Items).1,
        ({ clusterId := 1, processedItemId := 8, similarityScore := 9 / 10 } : ClusterMemberRec).clusterId = sc.id ∧
          ({ clusterId := 1, processedItemId := 8, similarityScore := 9 / 10 } : ClusterMemberRec).similarityScore =
            (if ({ clusterId := 1, processedItemId := 8, similarityScore := 9 / 10 } : ClusterMemberRec).processedItemId = sc.canonicalItemId then 1 else 9 / 10)) :=
  ⟨by with_unfolding_all decide,
    (C9_constant_member_scores c9Ctx 0 1 c9Items (by with_unfolding_all decide) (by decide)).1
      { clusterId := 1, processedItemId := 8, similarityScore := 9 / 10 }
      (by with_unfolding_all decide)⟩

/-! ### Claim C3 -/

/-- Replacing position `i` trades the old entry for the new one in every
occurrence count. -/
theorem count_set_add (l : List Int) :
    ∀ (i : Nat), i < l.length → ∀ (v c : Int),
      (l.set i v).count c + (if l.getD i (-1) = c then 1 else 0) =
        l.count c + (if v = c then 1 else 0) := by
  induction l with
  | nil => intro i hi; exact absurd hi (by simp)
  | cons x xs ih =>
    intro i hi v c
    match i with
    | 0 =>
      simp only [List.set_cons_zero, List.count_cons, List.getD_cons_zero, beq_iff_eq]
      by_cases hv : v = c <;> by_cases hx : x = c <;> simp [hv, hx]
    | i + 1 =>
      have hi1 : i < xs.length := by simpa using hi
      have hxd := ih i hi1 v c
      simp only [List.set_cons_succ, List.count_cons, List.getD_cons_succ, beq_iff_eq]
      simp only [List.getD_eq_getElem?_getD] at hxd ⊢
      by_cases hx : x = c <;> simp [hx] <;> omega

/-- Reading an untouched position after `set`. -/
theorem getD_set_ne {α : Type} (l : List α) (i j : Nat) (hij : i ≠ j) (v d : α) :
    (l.set i v).getD j d = l.getD j d := by
  simp [List.getD_eq_getElem?_getD, List.getElem?_set_ne hij]

/-- Reading the written position after `set`. -/
theorem getD_set_self {α : Type} (l : List α) (i : Nat) (hi : i < l.length) (v d : α) :
    (l.set i v).getD i d = v := by
  simp [List.getD_eq_getElem?_getD, List.getElem?_set_self hi]

/-- One absorb step of the fallback's inner scan preserves the open
cluster's bookkeeping: the label list keeps its length, the count of the
open label equals the member count, all entries stay in `[-1, cur]`, the
seed keeps its label, counts of other kept labels are untouched and the
member list never shrinks. -/
theorem innerScan_inv (sim : Nat → Nat → ℚ) (t : ℚ) (cur : Int) (hcur : 0 ≤ cur)
    (i : Nat) (st : List Int × List Nat) (j : Nat) (hj : j < st.1.length) (hji : j ≠ i)
    (h1 : st.1.count cur = st.2.length)
    (h2 : ∀ x ∈ st.1, -1 ≤ x ∧ x ≤ cur)
    (h3 : st.1.getD i (-1) = cur) :
    (innerScan sim t cur st j).1.length = st.1.length ∧
    (innerScan sim t cur st j).1.count cur = (innerScan sim t cur st j).2.length ∧
    (∀ x ∈ (innerScan sim t cur st j).1, -1 ≤ x ∧ x ≤ cur) ∧
    (innerScan sim t cur st j).1.getD i (-1) = cur ∧
    (∀ c : Int, c ≠ -1 → c ≠ cur →
      (innerScan sim t cur st j).1.count c = st.1.count c) ∧
    st.2.length ≤ (innerScan sim t cur st j).2.length := by
  unfold innerScan
  by_cases hskip : st.1.getD j (-1) ≠ -1
  · rw [if_pos hskip]
    exact ⟨rfl, h1, h2, h3, fun _ _ _ => rfl, Nat.le_refl _⟩
  · rw [if_neg hskip]
    push_neg at hskip
    have hjv : st.1.getD j (-1) = -1 := hskip
    by_cases habs : maxSimTo sim j st.2 ≥ t
    · rw [if_pos habs]
      have hset := count_set_add st.1 j hj cur
      refine ⟨by simp, ?_, ?_, ?_, ?_, ?_⟩
      · have := hset cur
        rw [hjv] at this
        have hne : (-1 : Int) ≠ cur := by omega
        simp [hne] at this
        simp [this, h1]
      · intro x hx
        rcases List.mem_or_eq_of_mem_set hx with hx' | rfl
        · exact h2 x hx'
        · exact ⟨by omega, Int.le_refl _⟩
      · rw [getD_set_ne st.1 j i hji]
        exact h3
      · intro c hc1 hc2
        have := hset c
        rw [hjv] at this
        simp [Ne.symm hc1, Ne.symm hc2] at this
        exact this
      · simp
    · rw [if_neg habs]
      exact ⟨rfl, h1, h2, h3, fun _ _ _ => rfl, Nat.le_refl _⟩

/-- The fallback's inner scan over any list of later indices preserves
the open cluster's bookkeeping. -/
theorem innerFold_inv (sim : Nat → Nat → ℚ) (t : ℚ) (cur : Int) (hcur : 0 ≤ cur) (i : Nat) :
    ∀ (js : List Nat) (st : List Int × List Nat),
      (∀ j ∈ js, j ≠ i ∧ j < st.1.length) →
      st.1.count cur = st.2.length →
      (∀ x ∈ st.1, -1 ≤ x ∧ x ≤ cur) →
      st.1.getD i (-1) = cur →
      (js.foldl (innerScan sim t cur) st).1.length = st.1.length ∧
      (js.foldl (innerScan sim t cur) st).1.count cur =
        (js.foldl (innerScan sim t cur) st).2.length ∧
      (∀ x ∈ (js.foldl (innerScan sim t cur) st).1, -1 ≤ x ∧ x ≤ cur) ∧
      (js.foldl (innerScan sim t cur) st).1.getD i (-1) = cur ∧
      (∀ c : Int, c ≠ -1 → c ≠ cur →
        (js.foldl (innerScan sim t cur) st).1.count c = st.1.count c) ∧
      st.2.length ≤ (js.foldl (innerScan sim t cur) st).2.length := by
  intro js
  induction js with
  | nil =>
    intro st _ h1 h2 h3
    exact ⟨rfl, h1, h2, h3, fun _ _ _ => rfl, Nat.le_refl _⟩
  | cons j js ih =>
    intro st hjs h1 h2 h3
    rw [List.foldl_cons]
    have hjmem := hjs j (List.mem_cons_self _ _)
    have hstep := innerScan_inv sim t cur hcur i st j hjmem.2 hjmem.1 h1 h2 h3
    have hrest := ih (innerScan sim t cur st j)
      (fun j' hj' => ⟨(hjs j' (List.mem_cons_of_mem _ hj')).1, by
        rw [hstep.1]; exact (hjs j' (List.mem_cons_of_mem _ hj')).2⟩)
      hstep.2.1 hstep.2.2.1 hstep.2.2.2.1
    refine ⟨hrest.1.trans hstep.1, hrest.2.1, hrest.2.2.1, hrest.2.2.2.1, ?_, ?_⟩
    · intro c hc1 hc2
      rw [hrest.2.2.2.2.1 c hc1 hc2, hstep.2.2.2.2.1 c hc1 hc2]
    · exact hstep.2.2.2.2.2.trans hrest.2.2.2.2.2

/-- One outer step of the fallback preserves the global invariant: the
label list keeps length `n`, the label counter stays non-negative, all
entries lie in `[-1, counter)`, and every already-assigned label value
occurs at least twice. -/
theorem outerStep_inv (sim : Nat → Nat → ℚ) (t : ℚ) (n : Nat)
    (st : List Int × Int) (i : Nat) (hi : i < n)
    (hP1 : st.1.length = n) (hP2 : 0 ≤ st.2)
    (hP3 : ∀ x ∈ st.1, -1 ≤ x ∧ x < st.2)
    (hP4 : ∀ c : Int, 0 ≤ c → c < st.2 → 2 ≤ st.1.count c) :
    (outerStep sim t st i).1.length = n ∧ 0 ≤ (outerStep sim t st i).2 ∧
    (∀ x ∈ (outerStep sim t st i).1, -1 ≤ x ∧ x < (outerStep sim t st i).2) ∧
    (∀ c : Int, 0 ≤ c → c < (outerStep sim t st i).2 →
      2 ≤ (outerStep sim t st i).1.count c) := by
  unfold outerStep
  by_cases hskip : st.1.getD i (-1) ≠ -1
  · simp only [if_pos hskip]
    exact ⟨hP1, hP2, hP3, hP4⟩
  · simp only [if_neg hskip]
    push_neg at hskip
    have hilen : i < st.1.length := by rw [hP1]; exact hi
    have hiv : st.1.getD i (-1) = -1 := hskip
    have hcount0 : st.1.count st.2 = 0 := by
      rw [List.count_eq_zero]
      intro hmem
      exact absurd (hP3 _ hmem).2 (by omega)
    have hlen1 : (st.1.set i st.2).length = st.1.length := by simp
    have hcount1 : (st.1.set i st.2).count st.2 = 1 := by
      have := count_set_add st.1 i hilen st.2 st.2
      rw [hiv, hcount0] at this
      have hne : (-1 : Int) ≠ st.2 := by omega
      simpa [hne] using this
    have hent1 : ∀ x ∈ st.1.set i st.2, -1 ≤ x ∧ x ≤ st.2 := by
      intro x hx
      rcases List.mem_or_eq_of_mem_set hx with hx' | rfl
      · exact ⟨(hP3 x hx').1, Int.le_of_lt (hP3 x hx').2⟩
      · exact ⟨by omega, Int.le_refl _⟩
    have hseed : (st.1.set i st.2).getD i (-1) = st.2 :=
      getD_set_self st.1 i hilen st.2 (-1)
    have hjs : ∀ j ∈ List.range' (i + 1) ((st.1.set i st.2).length - (i + 1)),
        j ≠ i ∧ j < (st.1.set i st.2).length := by
      intro j hj
      rw [List.mem_range'] at hj
      rcases hj with ⟨k, hk, rfl⟩
      constructor
      · omega
      · have : i + 1 ≤ (st.1.set i st.2).length := by
          rw [hlen1, hP1]; omega
        omega
    have hfold := innerFold_inv sim t st.2 hP2 i
      (List.range' (i + 1) ((st.1.set i st.2).length - (i + 1)))
      (st.1.set i st.2, [i]) hjs (by simpa using hcount1) hent1 hseed
    set r := innerLoop sim t st.2 (st.1.set i st.2) i with hr
    have hrfold : r = (List.range' (i + 1) ((st.1.set i st.2).length - (i + 1))).foldl
        (innerScan sim t st.2) (st.1.set i st.2, [i]) := rfl
    rw [← hrfold] at hfold
    have hrlen : r.1.length = n := by rw [hfold.1, hlen1, hP1]
    have hpres : ∀ c : Int, c ≠ -1 → c ≠ st.2 → r.1.count c = st.1.count c := by
      intro c hc1 hc2
      rw [hfold.2.2.2.2.1 c hc1 hc2]
      have := count_set_add st.1 i hilen st.2 c
      rw [hiv] at this
      simp [Ne.symm hc1, Ne.symm hc2] at this
      exact this
    by_cases hsing : r.2.length = 1
    · simp only [if_pos hsing]
      have hirlen : i < r.1.length := by rw [hrlen]; exact hi
      have hirv : r.1.getD i (-1) = st.2 := hfold.2.2.2.1
      have hcnt : (r.1.set i (-1)).count st.2 = 0 := by
        have := count_set_add r.1 i hirlen (-1) st.2
        rw [hirv, hfold.2.1, hsing] at this
        have hne : (-1 : Int) ≠ st.2 := by omega
        simpa [hne] using this
      have hnotmem : st.2 ∉ r.1.set i (-1) := List.count_eq_zero.1 hcnt
      refine ⟨by simp [hrlen], hP2, ?_, ?_⟩
      · intro x hx
        have hxle : -1 ≤ x ∧ x ≤ st.2 := by
          rcases List.mem_or_eq_of_mem_set hx with hx' | rfl
          · exact hfold.2.2.1 x hx'
          · exact ⟨Int.le_refl _, by omega⟩
        have hxne : x ≠ st.2 := fun hEq => hnotmem (hEq ▸ hx)
        exact ⟨hxle.1, by omega⟩
      · intro c hc0 hcs
        have hcne2 : c ≠ st.2 := by omega
        have hcne1 : c ≠ -1 := by omega
        have := count_set_add r.1 i hirlen (-1) c
        rw [hirv] at this
        simp [Ne.symm hcne1, Ne.symm hcne2] at this
        rw [this, hpres c hcne1 hcne2]
        exact hP4 c hc0 hcs
    · simp only [if_neg hsing]
      have hmem2 : 2 ≤ r.2.length := by
        have := hfold.2.2.2.2.2
        simp at this
        omega
      refine ⟨hrlen, by omega, ?_, ?_⟩
      · intro x hx
        have := hfold.2.2.1 x hx
        exact ⟨this.1, by omega⟩
      · intro c hc0 hcs
        by_cases hc2 : c = st.2
        · rw [hc2, hfold.2.1]
          exact hmem2
        · have hcne1 : c ≠ -1 := by omega
          rw [hpres c hcne1 hc2]
          exact hP4 c hc0 (by omega)

/-- The invariant holds after the whole outer pass. -/
theorem outerFold_inv (sim : Nat → Nat → ℚ) (t : ℚ) (n : Nat) :
    ∀ (is' : List Nat) (st : List Int × Int), (∀ i ∈ is', i < n) →
      st.1.length = n → 0 ≤ st.2 →
      (∀ x ∈ st.1, -1 ≤ x ∧ x < st.2) →
      (∀ c : Int, 0 ≤ c → c < st.2 → 2 ≤ st.1.count c) →
      (is'.foldl (outerStep sim t) st).1.length = n ∧
      0 ≤ (is'.foldl (outerStep sim t) st).2 ∧
      (∀ x ∈ (is'.foldl (outerStep sim t) st).1,
        -1 ≤ x ∧ x < (is'.foldl (outerStep sim t) st).2) ∧
      (∀ c : Int, 0 ≤ c → c < (is'.foldl (outerStep sim t) st).2 →
        2 ≤ (is'.foldl (outerStep sim t) st).1.count c) := by
  intro is'
  induction is' with
  | nil => intro st _ h1 h2 h3 h4; exact ⟨h1, h2, h3, h4⟩
  | cons i is' ih =>
    intro st hmem h1 h2 h3 h4
    rw [List.foldl_cons]
    have hstep := outerStep_inv sim t n st i (hmem i (List.mem_cons_self _ _)) h1 h2 h3 h4
    exact ih _ (fun j hj => hmem j (List.mem_cons_of_mem _ hj))
      hstep.1 hstep.2.1 hstep.2.2.1 hstep.2.2.2

/-- The fallback returns one label per input. -/
theorem thresholdClustering_length (sim : Nat → Nat → ℚ) (t : ℚ) (n : Nat) :
    (thresholdClustering sim t n).length = n := by
  unfold thresholdClustering
  exact (outerFold_inv sim t n (List.range n) (List.replicate n (-1), 0)
    (fun i hi => List.mem_range.1 hi) (by simp) (by omega)
    (by intro x hx; rcases List.eq_of_mem_replicate hx with rfl; omega)
    (by intro c hc0 hcs; omega)).1

/-- Every label value the fallback actually assigns (anything other than
the noise label `-1`) occurs at least twice in the output. -/
theorem thresholdClustering_kept (sim : Nat → Nat → ℚ) (t : ℚ) (n : Nat) :
    ∀ l ∈ thresholdClustering sim t n, l ≠ -1 →
      2 ≤ (thresholdClustering sim t n).count l := by
  intro l hl hne
  have hinv := outerFold_inv sim t n (List.range n) (List.replicate n (-1), 0)
    (fun i hi => List.mem_range.1 hi) (by simp) (by omega)
    (by intro x hx; rcases List.eq_of_mem_replicate hx with rfl; omega)
    (by intro c hc0 hcs; omega)
  have hl' := hinv.2.2.1 l hl
  exact hinv.2.2.2 l (by omega) hl'.2

/-- The member list of a built cluster counts the label's occurrences. -/
theorem idxWhereAux_length (l : List Int) (v : Int) :
    ∀ k, (idxWhereAux l v k).length = l.count v := by
  induction l with
  | nil => intro k; simp [idxWhereAux]
  | cons x xs ih =>
    intro k
    unfold idxWhereAux
    by_cases hx : x = v
    · simp [if_pos hx, ih (k + 1), List.count_cons, hx]
    · simp [if_neg hx, ih (k + 1), List.count_cons, Ne.symm hx]

/-- C3 (amended): on the threshold-based fallback path, every cluster
returned by the clustering operation has at least `2` members — the
`min_cluster_size` guarantee of the claim therefore holds exactly when
`min_cluster_size ≤ 2` (which is how the pipeline calls it), but not for
larger values, since the fallback's "keep unless singleton" rule ignores
`min_cluster_size`. -/
theorem C3_fallback_cluster_size (sim : Nat → Nat → ℚ) (t : ℚ)
    (embeddings : List Emb) (mcs : Nat) :
    ∀ c ∈ (clusterItems (fallbackLabels sim t) embeddings mcs).clusters,
      2 ≤ c.itemIndices.length := by
  intro c hc
  unfold clusterItems at hc
  by_cases hsz : embeddings.length < mcs
  · simp [hsz] at hc
  · simp only [if_neg hsz] at hc
    rcases List.mem_map.1 hc with ⟨lab, hlab, rfl⟩
    rcases (mem_uniqueSortedLabels _ _).1 hlab with ⟨hmem, hne⟩
    rw [buildCluster_itemIndices, idxWhere, idxWhereAux_length]
    exact thresholdClustering_kept sim t embeddings.length lab hmem hne

/-- Witness for C3's amended theorem at a concrete fallback cluster. -/
theorem C3_fallback_cluster_size_witness :
    ((⟨0, [0, 1], [1], 0⟩ : Cluster) ∈
        (clusterItems
          (fallbackLabels (fun i j => if (i = 0 ∧ j = 1) ∨ (i = 1 ∧ j = 0) ∨ i = j then 1 else 0)
            (17 / 20)) [[(1 : ℚ)], [1], [2]] 2).clusters) ∧
      2 ≤ (⟨0, [0, 1], [1], 0⟩ : Cluster).itemIndices.length :=
  ⟨by with_unfolding_all decide,
    C3_fallback_cluster_size
      (fun i j => if (i = 0 ∧ j = 1) ∨ (i = 1 ∧ j = 0) ∨ i = j then 1 else 0)
      (17 / 20) [[(1 : ℚ)], [1], [2]] 2
      (⟨0, [0, 1], [1], 0⟩ : Cluster) (by with_unfolding_all decide)⟩

/-- C3 (counterexample): with `min_cluster_size = 3` and three
embeddings of which exactly the first two are similar, the fallback path
returns a cluster with only `2 < 3` members, so the claim "never returns
a cluster smaller than `min_cluster_size`" is false as stated. -/
theorem C3_counterexample :
    ((clusterItems
        (fallbackLabels (fun i j => if (i = 0 ∧ j = 1) ∨ (i = 1 ∧ j = 0) ∨ i = j then 1 else 0)
          (17 / 20)) [[(1 : ℚ)], [1], [2]] 3).clusters.any
      (fun c => decide (c.itemIndices.length < 3))) = true := by
  with_unfolding_all decide

/-! ### Claim C2 -/

/-- The batch variant's per-item tail computes exactly the single
variant's tail on the same history list: the precomputed metadata /
similarity rows are the images of the same fold the single variant runs
directly. -/
theorem batchNoveltyOne_eq (ctx : NovCtx) (threshold : ℚ) (emb : Emb)
    (hist : List ProcItem) :
    batchNoveltyOne ctx threshold emb hist = noveltyFromHistory ctx threshold emb hist := by
  unfold batchNoveltyOne noveltyFromHistory
  have hcoll : batchCollectSimilar threshold (batchSims ctx emb hist) (batchHistMeta ctx hist) =
      collectSimilar ctx threshold emb hist := by
    unfold batchCollectSimilar batchSims batchHistMeta collectSimilar
    rw [List.zip_map', List.foldl_map]
  rw [hcoll]

/-- C2 (amended): `batch_check_novelty` returns, for each item of the
batch, exactly what `check_novelty` returns for that item, **provided no
other batch item is a historical candidate** (no stored item inside the
window with an embedding carries one of the batch ids).  As stated the
claim is false: the single variant excludes only the item itself from
history, the batch variant excludes every batch id, so batch items
present in the store leak into the single variant's history
(`C2_counterexample`). -/
theorem C2_batch_equals_single (ctx : NovCtx) (items : List (Int × Emb))
    (weeksBack : Int) (threshold : ℚ)
    (h : ∀ p ∈ ctx.procs, p.processedAt ≥ cutoffDate ctx weeksBack →
      p.embedding.isSome = true → p.id ∉ items.map (fun q => q.1)) :
    batchCheckNovelty ctx items weeksBack threshold =
      items.map (fun q => (q.1, checkNovelty ctx q.1 q.2 weeksBack threshold)) := by
  have hfilters : ∀ q ∈ items,
      ctx.procs.filter (histFilterSingle ctx q.1 weeksBack) =
        ctx.procs.filter (histFilterBatch ctx (items.map (fun q => q.1)) weeksBack) := by
    intro q hq
    apply List.filter_congr
    intro p hp
    unfold histFilterSingle histFilterBatch
    by_cases hw : p.processedAt ≥ cutoffDate ctx weeksBack
    · by_cases he : p.embedding.isSome = true
      · have hnotin := h p hp hw he
        have hne : p.id ≠ q.1 := fun hEq => hnotin (hEq ▸ List.mem_map.2 ⟨q, hq, rfl⟩)
        simp [hw, he, hne, hnotin]
      · simp [he]
    · simp [hw]
  simp only [batchCheckNovelty]
  by_cases hemp :
      (ctx.procs.filter (histFilterBatch ctx (items.map (fun q => q.1)) weeksBack)).isEmpty
  · rw [if_pos hemp]
    apply List.map_congr_left
    intro q hq
    have hsingle :
        (ctx.procs.filter (histFilterSingle ctx q.1 weeksBack)).isEmpty = true := by
      rw [hfilters q hq]; exact hemp
    simp [checkNovelty, hsingle]
  · rw [if_neg hemp]
    apply List.map_congr_left
    intro q hq
    have hsingle :
        (ctx.procs.filter (histFilterSingle ctx q.1 weeksBack)).isEmpty = false := by
      rw [hfilters q hq]; simpa using hemp
    simp only [checkNovelty, hfilters q hq, hemp, Bool.false_eq_true, if_false]
    rw [batchNoveltyOne_eq]

/-- The concrete context of the C2 witness: one historical item whose id
is not in the batch. -/
def c2wCtx : NovCtx :=
  { cos := fun _ _ => 0, now := 0, weekTicks := 1, wk := fun t => t
    contents := [], procs := [⟨3, 30, "s", [], [], some [2], 0⟩] }

/-- Witness for C2's amended theorem. -/
theorem C2_batch_equals_single_witness :
    batchCheckNovelty c2wCtx [((1 : Int), ([1] : Emb))] 4 (17 / 20) =
      [((1 : Int), checkNovelty c2wCtx 1 [1] 4 (17 / 20))] :=
  C2_batch_equals_single c2wCtx [(1, [1])] 4 (17 / 20) (by with_unfolding_all decide)

/-- The store of the C2 counterexample: both batch items are themselves
stored with embeddings inside the window. -/
def c2Ctx : NovCtx :=
  { cos := fun a b => if a = b ∧ a ≠ ([] : List ℚ) then 1 else 0
    now := 0, weekTicks := 1, wk := fun t => t
    contents := []
    procs := [⟨1, 10, "s", [], [], some [1], 0⟩, ⟨2, 20, "s", [], [], some [1], 0⟩] }

/-- C2 (counterexample): checking the two stored items as one batch
reports both novel (each other's rows are excluded from history), while
`check_novelty` on item `1` alone sees item `2` as history (similarity
`1 ≥ 0.85`) and reports it not novel — so the batch variant does *not*
reproduce the single variant once per item. -/
theorem C2_counterexample :
    (batchCheckNovelty c2Ctx [(1, [1]), (2, [1])] 4 (17 / 20)).map
        (fun q => q.2.isNovel) = [true, true] ∧
      (checkNovelty c2Ctx 1 [1] 4 (17 / 20)).isNovel = false := by
  with_unfolding_all decide

/-! ### Claim C4 -/

/-- The follow-up scan succeeds exactly when some scanned entry is
recent (current or previous period key) with similarity at least `0.7`. -/
theorem followupCheck_iff (ctx : NovCtx) (top : List SimilarEntry) :
    followupCheck ctx top = true ↔
      ∃ e ∈ top,
        (e.weekNumber = ctx.wk ctx.now ∨ e.weekNumber = ctx.wk (ctx.now - ctx.weekTicks)) ∧
          e.similarity ≥ 7 / 10 := by
  unfold followupCheck
  simp [List.any_eq_true]

/-- C4 (amended): in both the single and the batch variant,
`is_followup` is `true` iff one of the **retained** `similar_items`
(those with similarity at or above the novelty threshold, truncated to
the top 5) has similarity at least `0.7` and a period key equal to the
current or immediately preceding period.  As stated — quantifying over
all historical items regardless of the configured threshold — the claim
is false (`C4_counterexample`): an above-`0.7` recent match below the
novelty threshold is not retained and is never seen by the follow-up
scan. -/
theorem C4_followup_iff_retained (ctx : NovCtx) :
    (∀ (pid : Int) (emb : Emb) (weeksBack : Int) (threshold : ℚ),
      ((checkNovelty ctx pid emb weeksBack threshold).isFollowup = true ↔
        ∃ e ∈ (checkNovelty ctx pid emb weeksBack threshold).similarItems,
          (e.weekNumber = ctx.wk ctx.now ∨ e.weekNumber = ctx.wk (ctx.now - ctx.weekTicks)) ∧
            e.similarity ≥ 7 / 10)) ∧
    (∀ (items : List (Int × Emb)) (weeksBack : Int) (threshold : ℚ),
      ∀ r ∈ batchCheckNovelty ctx items weeksBack threshold,
        (r.2.isFollowup = true ↔
          ∃ e ∈ r.2.similarItems,
            (e.weekNumber = ctx.wk ctx.now ∨ e.weekNumber = ctx.wk (ctx.now - ctx.weekTicks)) ∧
              e.similarity ≥ 7 / 10)) := by
  constructor
  · intro pid emb weeksBack threshold
    unfold checkNovelty
    by_cases hemp : (ctx.procs.filter (histFilterSingle ctx pid weeksBack)).isEmpty
    · simp [hemp, novelByDefault]
    · simp only [hemp, Bool.false_eq_true, if_false]
      exact followupCheck_iff ctx _
  · intro items weeksBack threshold r hr
    unfold batchCheckNovelty at hr
    by_cases hemp :
        (ctx.procs.filter (histFilterBatch ctx (items.map (fun q => q.1)) weeksBack)).isEmpty
    · rw [if_pos hemp] at hr
      rcases List.mem_map.1 hr with ⟨q, _, rfl⟩
      simp [novelByDefault]
    · rw [if_neg hemp] at hr
      rcases List.mem_map.1 hr with ⟨q, _, rfl⟩
      exact followupCheck_iff ctx _

/-- The history of the C4 counterexample: one recent item at similarity
`0.75` — above the follow-up bar `0.7`, below the novelty threshold
`0.85`. -/
def c4Ctx : NovCtx :=
  { cos := fun a b =>
      if a = b then 1
      else if (a, b) = (([1] : List ℚ), ([2] : List ℚ)) ∨ (a, b) = ([2], [1]) then 3 / 4
      else 0
    now := 0, weekTicks := 1, wk := fun t => t
    contents := []
    procs := [⟨2, 20, "s", [], [], some ([2] : List ℚ), 0⟩] }

/-- C4 (counterexample): the history contains an item of the *current*
period with similarity `0.75 ≥ 0.7`, yet `check_novelty` with threshold
`0.85` reports `is_followup = false`, because the `0.75` match is below
the novelty threshold and hence never enters `similar_items`. -/
theorem C4_counterexample :
    (checkNovelty c4Ctx 1 [1] 4 (17 / 20)).isFollowup = false ∧
      (c4Ctx.procs.filter (histFilterSingle c4Ctx 1 4)).any
        (fun p => decide (c4Ctx.cos [1] (p.embedding.getD []) ≥ 7 / 10) &&
          ((c4Ctx.wk p.processedAt == c4Ctx.wk c4Ctx.now) ||
            (c4Ctx.wk p.processedAt == c4Ctx.wk (c4Ctx.now - c4Ctx.weekTicks)))) = true := by
  with_unfolding_all decide

/-- Witness for C4's amended theorem on a concrete batch row. -/
theorem C4_followup_iff_retained_witness :
    (((batchCheckNovelty c4Ctx [(1, [1])] 4 (17 / 20)).getD 0 (0, novelByDefault)).2.isFollowup = true ↔
      ∃ e ∈ ((batchCheckNovelty c4Ctx [(1, [1])] 4 (17 / 20)).getD 0 (0, novelByDefault)).2.similarItems,
        (e.weekNumber = c4Ctx.wk c4Ctx.now ∨
          e.weekNumber = c4Ctx.wk (c4Ctx.now - c4Ctx.weekTicks)) ∧
          e.similarity ≥ 7 / 10) :=
  (C4_followup_iff_retained c4Ctx).2 [(1, [1])] 4 (17 / 20)
    ((batchCheckNovelty c4Ctx [(1, [1])] 4 (17 / 20)).getD 0 (0, novelByDefault))
    (by with_unfolding_all decide)

/-! ### Claim C8 -/

/-- C8: when no historical item with a stored embedding lies inside the
history window (excluding the checked item itself), `check_novelty`
returns the maximally-novel result `⟨is_novel = true, novelty_score = 1,
similar_items = [], is_followup = false⟩`, and `batch_check_novelty`
returns that same result for any batch containing the item. -/
theorem C8_no_history_novel (ctx : NovCtx) (pid : Int) (emb : Emb)
    (weeksBack : Int) (threshold : ℚ) (items : List (Int × Emb))
    (h : ctx.procs.filter (histFilterSingle ctx pid weeksBack) = []) :
    checkNovelty ctx pid emb weeksBack threshold = novelByDefault ∧
      ((pid, emb) ∈ items →
        (pid, novelByDefault) ∈ batchCheckNovelty ctx items weeksBack threshold) := by
  constructor
  · simp [checkNovelty, h]
  · intro hmem
    have hbatch :
        ctx.procs.filter (histFilterBatch ctx (items.map (fun q => q.1)) weeksBack) = [] := by
      rw [List.filter_eq_nil_iff]
      intro p hp
      intro hpb
      have hps : histFilterSingle ctx pid weeksBack p = true := by
        unfold histFilterBatch at hpb
        unfold histFilterSingle
        simp only [Bool.and_eq_true] at hpb ⊢
        refine ⟨⟨?_, hpb.1.2⟩, hpb.2⟩
        have hnotin : p.id ∉ items.map (fun q => q.1) := by
          intro hin
          have hc : (items.map (fun q => q.1)).contains p.id = true := by
            rw [List.contains_eq_any_beq]
            exact List.any_eq_true.2 ⟨p.id, hin, beq_self_eq_true p.id⟩
          rw [hc] at hpb
          exact absurd hpb.1.1 (by simp)
        have hpin : pid ∈ items.map (fun q => q.1) :=
          List.mem_map.2 ⟨(pid, emb), hmem, rfl⟩
        simp only [bne_iff_ne]
        intro hEq
        exact hnotin (hEq ▸ hpin)
      have : p ∈ ctx.procs.filter (histFilterSingle ctx pid weeksBack) :=
        List.mem_filter.2 ⟨hp, hps⟩
      rw [h] at this
      exact absurd this (List.not_mem_nil p)
    simp only [batchCheckNovelty, hbatch, List.isEmpty_nil, if_true]
    exact List.mem_map.2 ⟨(pid, emb), hmem, rfl⟩

/-- The store of the C8 witness: the only stored row has no embedding,
so no historical candidate exists. -/
def c8Ctx : NovCtx :=
  { cos := fun _ _ => 0, now := 0, weekTicks := 1, wk := fun t => t
    contents := [], procs := [⟨5, 50, "s", [], [], none, 0⟩] }

/-- Witness for C8. -/
theorem C8_no_history_novel_witness :
    checkNovelty c8Ctx 1 [1] 4 (17 / 20) = novelByDefault ∧
      ((1 : Int), novelByDefault) ∈ batchCheckNovelty c8Ctx [(1, [1])] 4 (17 / 20) :=
  ⟨(C8_no_history_novel c8Ctx 1 [1] 4 (17 / 20) [(1, [1])] (by with_unfolding_all decide)).1,
    (C8_no_history_novel c8Ctx 1 [1] 4 (17 / 20) [(1, [1])] (by with_unfolding_all decide)).2
      (by decide)⟩

/-! ### Claim C7 -/

/-- Does the per-item external call chain raise for this item? -/
def procFails (ctx : PipeCtx) (sources : List SourceRec) (item : ContentItemRec) : Bool :=
  match processOne ctx sources item with
  | .ok _ => false
  | .error _ => true

/-- The message of the exception raised for this item (empty for a
successful item; only read under `procFails`). -/
def procErr (ctx : PipeCtx) (sources : List SourceRec) (item : ContentItemRec) : String :=
  match processOne ctx sources item with
  | .ok _ => ""
  | .error e => e

/-- Splitting a list by a predicate splits its length. -/
theorem filter_length_split {α : Type} (l : List α) (p : α → Bool) :
    (l.filter p).length + (l.filter (fun i => !(p i))).length = l.length := by
  induction l with
  | nil => rfl
  | cons x xs ih => by_cases hx : p x <;> simp [List.filter_cons, hx] <;> omega

/-- Full characterisation of the Step-3 loop: the failure count, the
success count, the recorded error messages and the content ids of the
created rows are each determined by filtering the input items on whether
their external call raises. -/
theorem processLoop_spec (ctx : PipeCtx) (sources : List SourceRec) :
    ∀ (items : List ContentItemRec) (nid : Int),
      (processLoop ctx sources items nid).failedCount =
        (items.filter (procFails ctx sources)).length ∧
      (processLoop ctx sources items nid).processedCount =
        (items.filter (fun i => !(procFails ctx sources i))).length ∧
      (processLoop ctx sources items nid).errorMsgs =
        (items.filter (procFails ctx sources)).map
          (fun i => failMsg i (procErr ctx sources i)) ∧
      (processLoop ctx sources items nid).newItems.map (fun q => q.1.contentItemId) =
        (items.filter (fun i => !(procFails ctx sources i))).map (fun i => i.id) := by
  intro items
  induction items with
  | nil => intro nid; simp [processLoop]
  | cons item rest ih =>
    intro nid
    cases hpo : processOne ctx sources item with
    | ok v =>
      obtain ⟨ex, emb⟩ := v
      have hf : procFails ctx sources item = false := by simp [procFails, hpo]
      rcases ih (nid + 1) with ⟨ih1, ih2, ih3, ih4⟩
      simp only [processLoop, hpo]
      simp [List.filter_cons, hf, ih1, ih2, ih3, ih4, mkProcItem]
    | error e =>
      have hf : procFails ctx sources item = true := by simp [procFails, hpo]
      have he : procErr ctx sources item = e := by simp [procErr, hpo]
      rcases ih nid with ⟨ih1, ih2, ih3, ih4⟩
      simp only [processLoop, hpo]
      simp [List.filter_cons, hf, he, ih1, ih2, ih3, ih4]

/-- A non-empty `items_to_process` means the run did not take the early
"nothing unprocessed" return. -/
theorem unprocessed_nonempty_of_items (ctx : PipeCtx) (st : Store)
    (h : pipelineItemsToProcess ctx st ≠ []) :
    (pipelineUnprocessed st).isEmpty = false := by
  cases hb : (pipelineUnprocessed st).isEmpty
  · rfl
  · exfalso
    apply h
    have hnil : pipelineUnprocessed st = [] := List.isEmpty_iff.1 hb
    unfold pipelineItemsToProcess pipelineUnprocessed1
    rw [hnil]
    rfl

/-- The follow-up annotation never touches `content_item_id`. -/
theorem annotateItem_cid (nres : List (Int × NoveltyResult)) (p : ProcItem) :
    (annotateItem nres p).contentItemId = p.contentItemId := by
  unfold annotateItem
  cases h : nres.find? (fun r => r.1 == p.id) with
  | none => rfl
  | some r => by_cases hf : r.2.isFollowup <;> simp [hf]

/-- The content ids of the run's new rows are unchanged by the novelty
annotation pass. -/
theorem pipelineAnnotated_cids (ctx : PipeCtx) (st : Store) :
    (pipelineAnnotated ctx st).map (fun q => q.1.contentItemId) =
      (pipelineLoopOut ctx st).newItems.map (fun q => q.1.contentItemId) := by
  unfold pipelineAnnotated
  by_cases hemp : (pipelineLoopOut ctx st).newItems.isEmpty
  · simp [hemp]
  · simp only [hemp, Bool.false_eq_true, if_false, List.map_map]
    apply List.map_congr_left
    intro q _
    simp [annotateItem_cid]

/-- C7: when the external extraction/embedding call raises for exactly
one item of the run's `items_to_process`, the run result counts exactly
one failure, records exactly that item's error message, still processes
every other item (`items_processed = len - 1`), and the store gains
`ProcessedItem` rows for exactly the non-failing items (none for the
failed one) — the batch is not aborted. -/
theorem C7_failure_isolated (ctx : PipeCtx) (w : Int) (st : Store) (X : ContentItemRec)
    (h1 : (pipelineItemsToProcess ctx st).filter (procFails ctx st.sources) = [X]) :
    (processNewItems ctx w st).2.itemsFailed = 1 ∧
    (processNewItems ctx w st).2.errors = [failMsg X (procErr ctx st.sources X)] ∧
    (processNewItems ctx w st).2.itemsProcessed =
      (pipelineItemsToProcess ctx st).length - 1 ∧
    ((processNewItems ctx w st).1.processedItems.map (fun p => p.contentItemId) =
      st.processedItems.map (fun p => p.contentItemId) ++
        ((pipelineItemsToProcess ctx st).filter
          (fun i => !(procFails ctx st.sources i))).map (fun i => i.id)) := by
  have hne : pipelineItemsToProcess ctx st ≠ [] := by
    intro hnil
    rw [hnil] at h1
    exact absurd h1 (by simp)
  have hemp := unprocessed_nonempty_of_items ctx st hne
  have hspec := processLoop_spec ctx st.sources (pipelineItemsToProcess ctx st) st.nextProcessedId
  have hsplit := filter_length_split (pipelineItemsToProcess ctx st) (procFails ctx st.sources)
  simp only [processNewItems, hemp, Bool.false_eq_true, if_false]
  refine ⟨?_, ?_, ?_, ?_⟩
  · show (pipelineLoopOut ctx st).failedCount = 1
    unfold pipelineLoopOut
    rw [hspec.1, h1]
    rfl
  · show (pipelineLoopOut ctx st).errorMsgs = _
    unfold pipelineLoopOut
    rw [hspec.2.2.1, h1]
    rfl
  · show (pipelineLoopOut ctx st).processedCount = _
    unfold pipelineLoopOut
    rw [hspec.2.1]
    rw [h1] at hsplit
    simp at hsplit
    omega
  · show (st.processedItems ++ (pipelineAnnotated ctx st).map (fun q => q.1)).map
        (fun p => p.contentItemId) = _
    rw [List.map_append]
    congr 1
    rw [List.map_map]
    have hcids := pipelineAnnotated_cids ctx st
    simp only [List.map_map] at hcids ⊢
    have hcomp : List.map ((fun p => p.contentItemId) ∘ fun q => (q : ProcItem × Emb).1)
        (pipelineAnnotated ctx st) =
        List.map (fun q => (q : ProcItem × Emb).1.contentItemId) (pipelineAnnotated ctx st) := rfl
    rw [hcomp, hcids]
    unfold pipelineLoopOut
    rw [hspec.2.2.2]

/-- The concrete context of the C7 witness: extraction raises exactly on
empty text. -/
def c7Ctx : PipeCtx :=
  { hash := fun _ tok => tok.length
    fingerprintThreshold := 8 / 10
    noveltyWeeks := 4
    semanticThreshold := 17 / 20
    extract := fun content _ _ _ =>
      if content = "" then Except.error "boom" else Except.ok ⟨"s", [], []⟩
    encode := fun _ => Except.ok [1]
    cos := fun _ _ => 0
    now := 0, weekTicks := 1, wk := fun t => t
    labelsOf := fun es => List.replicate es.length (-1) }

/-- The concrete store of the C7 witness: two unprocessed items of which
exactly the second (no content text) makes the external call raise. -/
def c7St : Store :=
  { sources := [⟨1, "substack"⟩]
    contentItems :=
      [⟨1, 1, "e1", some "A", none, some "hello", some 0, none⟩,
       ⟨2, 1, "e2", some "B", none, none, some 1, none⟩]
    processedItems := [], storyClusters := [], clusterMembers := []
    nextProcessedId := 1, nextClusterId := 1 }

/-- The failing item of the C7 witness. -/
def c7X : ContentItemRec := ⟨2, 1, "e2", some "B", none, none, some 1, none⟩

/-- Witness for C7. -/
theorem C7_failure_isolated_witness :
    (processNewItems c7Ctx 0 c7St).2.itemsFailed = 1 ∧
    (processNewItems c7Ctx 0 c7St).2.errors = [failMsg c7X (procErr c7Ctx c7St.sources c7X)] ∧
    (processNewItems c7Ctx 0 c7St).2.itemsProcessed =
      (pipelineItemsToProcess c7Ctx c7St).length - 1 ∧
    ((processNewItems c7Ctx 0 c7St).1.processedItems.map (fun p => p.contentItemId) =
      c7St.processedItems.map (fun p => p.contentItemId) ++
        ((pipelineItemsToProcess c7Ctx c7St).filter
          (fun i => !(procFails c7Ctx c7St.sources i))).map (fun i => i.id)) :=
  C7_failure_isolated c7Ctx 0 c7St c7X (by with_unfolding_all decide)

/-! ### Claim C1 -/

/-- The fingerprint pass never changes an item's id. -/
theorem fpUpdate_id (ctx : PipeCtx) (c : ContentItemRec) : (fpUpdate ctx c).id = c.id := by
  unfold fpUpdate
  by_cases h : truthyText c.contentText && c.fingerprint.isNone <;> simp [h]

/-- A run that neither skipped nor failed anything is unfolded to its
non-trivial branch. -/
theorem processNewItems_run (ctx : PipeCtx) (w : Int) (st : Store)
    (hempf : (pipelineUnprocessed st).isEmpty = false) :
    processNewItems ctx w st = (pipelineFinalStore ctx w st, pipelineRunResult ctx w st) := by
  unfold processNewItems
  rw [hempf]
  simp

/-- C1 (amended): a second `process_new_items` run immediately after a
completed run is a no-op — returning the store unchanged and a fresh
all-zero result, hence zero additional `ProcessedItem` rows and
bit-identical cluster rows for the week — **provided the first run left
no duplicate-skipped and no failed items**.  As stated (quantifying over
starting stores with duplicate-skipped leftovers) the claim is false:
skipped duplicates have no `ProcessedItem` row, so the second run picks
them up again and creates new rows (`C1_counterexample`). -/
theorem C1_second_run_noop (ctx : PipeCtx) (w w2 : Int) (st : Store)
    (h1 : (processNewItems ctx w st).2.itemsSkipped = 0)
    (h2 : (processNewItems ctx w st).2.itemsFailed = 0) :
    processNewItems ctx w2 (processNewItems ctx w st).1 =
      ((processNewItems ctx w st).1, emptyResult) := by
  by_cases hemp : (pipelineUnprocessed st).isEmpty
  · have hrun1 : processNewItems ctx w st = (st, emptyResult) := by
      unfold processNewItems
      rw [hemp]
      simp
    rw [hrun1]
    unfold processNewItems
    rw [hemp]
    simp
  · have hempf : (pipelineUnprocessed st).isEmpty = false := by
      revert hemp
      cases (pipelineUnprocessed st).isEmpty <;> simp
    have hrun1 := processNewItems_run ctx w st hempf
    rw [hrun1] at h1 h2 ⊢
    have hskiplen : (pipelineSkipIds ctx st).length = 0 := h1
    have hfail0 : (pipelineLoopOut ctx st).failedCount = 0 := h2
    have hskipnil : pipelineSkipIds ctx st = [] := List.length_eq_zero.1 hskiplen
    have hitems : pipelineItemsToProcess ctx st = pipelineUnprocessed1 ctx st := by
      unfold pipelineItemsToProcess
      rw [hskipnil]
      simp
    have hspec := processLoop_spec ctx st.sources (pipelineItemsToProcess ctx st)
      st.nextProcessedId
    have hfailnil :
        (pipelineItemsToProcess ctx st).filter (procFails ctx st.sources) = [] := by
      apply List.length_eq_zero.1
      rw [← hspec.1]
      exact hfail0
    have hallok :
        (pipelineItemsToProcess ctx st).filter (fun i => !(procFails ctx st.sources i)) =
          pipelineItemsToProcess ctx st := by
      apply List.filter_eq_self.mpr
      intro a ha
      have hna : ¬ procFails ctx st.sources a = true := by
        intro hfa
        have hmem : a ∈ (pipelineItemsToProcess ctx st).filter (procFails ctx st.sources) :=
          List.mem_filter.2 ⟨ha, hfa⟩
        rw [hfailnil] at hmem
        exact absurd hmem (List.not_mem_nil a)
      simp [hna]
    have hcids : (pipelineAnnotated ctx st).map (fun q => q.1.contentItemId) =
        (pipelineItemsToProcess ctx st).map (fun i => i.id) := by
      rw [pipelineAnnotated_cids]
      unfold pipelineLoopOut
      rw [hspec.2.2.2, hallok]
    have hrun2 : (pipelineUnprocessed (pipelineFinalStore ctx w st)).isEmpty = true := by
      rw [List.isEmpty_iff]
      unfold pipelineUnprocessed
      rw [List.filter_eq_nil_iff]
      intro c hc
      intro hcu
      have hall : ∀ p ∈ (pipelineFinalStore ctx w st).processedItems,
          ¬ ((p.contentItemId == c.id) = true) := by
        unfold isUnprocessed at hcu
        rw [Bool.not_eq_true'] at hcu
        exact fun p hp => by
          have := List.any_eq_false.1 hcu p hp
          exact this
      have hc' : c ∈ pipelineContentItems1 ctx st := hc
      rcases List.mem_map.1 hc' with ⟨c0, hc0, hceq⟩
      by_cases hu : isUnprocessed st c0
      · rw [if_pos hu] at hceq
        have hmem1 : fpUpdate ctx c0 ∈ pipelineUnprocessed1 ctx st :=
          List.mem_map.2 ⟨c0, List.mem_filter.2 ⟨hc0, hu⟩, rfl⟩
        have hmem2 : fpUpdate ctx c0 ∈ pipelineItemsToProcess ctx st := by
          rw [hitems]
          exact hmem1
        have hidmem : (fpUpdate ctx c0).id ∈
            (pipelineAnnotated ctx st).map (fun q => q.1.contentItemId) := by
          rw [hcids]
          exact List.mem_map.2 ⟨_, hmem2, rfl⟩
        rcases List.mem_map.1 hidmem with ⟨q, hq, hqid⟩
        have hpmem : q.1 ∈ (pipelineFinalStore ctx w st).processedItems := by
          show q.1 ∈ st.processedItems ++ (pipelineAnnotated ctx st).map (fun q => q.1)
          exact List.mem_append_right _ (List.mem_map.2 ⟨q, hq, rfl⟩)
        apply hall q.1 hpmem
        rw [hqid, hceq]
        exact beq_self_eq_true _
      · rw [if_neg hu] at hceq
        have hu' : isUnprocessed st c0 = false := by
          revert hu
          cases isUnprocessed st c0 <;> simp
        unfold isUnprocessed at hu'
        rw [Bool.not_eq_false'] at hu'
        rcases List.any_eq_true.1 hu' with ⟨p, hp, hbeq⟩
        have hpmem : p ∈ (pipelineFinalStore ctx w st).processedItems := by
          show p ∈ st.processedItems ++ (pipelineAnnotated ctx st).map (fun q => q.1)
          exact List.mem_append_left _ hp
        apply hall p hpmem
        rw [← hceq]
        exact hbeq
    show processNewItems ctx w2 (pipelineFinalStore ctx w st) =
      (pipelineFinalStore ctx w st, emptyResult)
    unfold processNewItems
    rw [hrun2]
    simp

/-- The concrete context of the C1 witness and counterexample:
deterministic external services that always succeed, the trivial hash
family, the default thresholds. -/
def c1Ctx : PipeCtx :=
  { hash := fun _ _ => 0
    fingerprintThreshold := 8 / 10
    noveltyWeeks := 4
    semanticThreshold := 17 / 20
    extract := fun _ _ _ _ => Except.ok ⟨"s", [], []⟩
    encode := fun _ => Except.ok [1]
    cos := fun a b => if a = b ∧ a ≠ ([] : List ℚ) then 1 else 0
    now := 0, weekTicks := 1, wk := fun t => t
    labelsOf := fun es => List.replicate es.length (-1) }

/-- The C1 counterexample store: two raw items with identical text — a
duplicate pair of which the first run keeps the earlier one and skips
the later one. -/
def c1St : Store :=
  { sources := [⟨1, "substack"⟩]
    contentItems :=
      [⟨1, 1, "e1", some "T1", none, some "hello world text", some 0, none⟩,
       ⟨2, 1, "e2", some "T2", none, some "hello world text", some 1, none⟩]
    processedItems := [], storyClusters := [], clusterMembers := []
    nextProcessedId := 1, nextClusterId := 1 }

/-- C1 (counterexample): after a completed first run on two identical
raw items (one processed, one duplicate-skipped), a second run with no
new raw items processes the previously skipped item and creates one
additional `ProcessedItem` — so re-running is *not* a no-op for stores
with duplicate-skipped leftovers. -/
theorem C1_counterexample :
    ((processNewItems c1Ctx 0 c1St).2.itemsSkipped = 1) ∧
    ((processNewItems c1Ctx 0 c1St).1.processedItems.length = 1) ∧
    ((processNewItems c1Ctx 0 ((processNewItems c1Ctx 0 c1St).1)).2.itemsProcessed = 1) ∧
    ((processNewItems c1Ctx 0 ((processNewItems c1Ctx 0 c1St).1)).1.processedItems.length = 2) := by
  with_unfolding_all decide

/-- The C1 witness store: a single clean item, so the first run skips
and fails nothing. -/
def c1wSt : Store :=
  { sources := [⟨1, "substack"⟩]
    contentItems := [⟨1, 1, "e1", some "T1", none, some "hello world text", some 0, none⟩]
    processedItems := [], storyClusters := [], clusterMembers := []
    nextProcessedId := 1, nextClusterId := 1 }

/-- Witness for C1's amended theorem. -/
theorem C1_second_run_noop_witness :
    processNewItems c1Ctx 0 ((processNewItems c1Ctx 0 c1wSt).1) =
      ((processNewItems c1Ctx 0 c1wSt).1, emptyResult) :=
  C1_second_run_noop c1Ctx 0 0 c1wSt (by with_unfolding_all decide)
    (by with_unfolding_all decide)

end WeeklyIntel
